import Mathlib

/-!
# MyTodoList: task repository, startup recurrence scan and streak calculator

A shallow embedding of the state logic of `src/src/App.jsx` and of the logic
of its components `TaskInput.jsx`, `TaskList.jsx` and `WeightTracker.jsx`.

Modelling conventions.
* A calendar date string `YYYY-MM-DD` is a `Date` (a valid Gregorian triple).
  An ISO instant string is an `Instant`: its first ten characters are its
  `date`, so `s.startsWith(todayStr)` is `s.date = todayStr`.
* The clock is a parameter of each operation. The startup scan reads it
  twice: `today` is the instant of local midnight and `todayStr` the UTC date
  string. `updateStreak` compares with `todayStr` and with `yesterdayStr`, the
  UTC date string of the instant one local calendar day back
  (`yesterdayDateString`).
* The streak count is a JavaScript number that holds an integer: `jsAdd` and
  `jsSub` round to the nearest double. A string of a parsed document is the
  sequence of its UTF-16 code units (`JsString`).
* A field that JavaScript tests for truthiness is an `Option`; the falsy
  values `null`, `undefined` and, for ids, `0`, and for strings, the empty
  string, are handled by `jsTruthyId` and `jsTruthyStr`.
* `setTasks(f)` and `setStreakInfo(v)` are modelled by returning the new state.
* `new Date(dateString)` is the time value `Date.getTime`, a whole number of
  days in milliseconds; `Array.prototype.sort` is the stable sort `jsSort`.
* A weight is the value of the number entered; no arithmetic is done on it.
-/

namespace MyTodoList

/-! ## Calendar -/

/-- Gregorian leap-year rule. -/
def isLeapYear (y : Int) : Bool :=
  y % 4 == 0 && (y % 100 != 0 || y % 400 == 0)

/-- Number of days of month `m` (1 to 12) in year `y`. -/
def daysInMonth (y : Int) (m : Nat) : Nat :=
  match m with
  | 2 => if isLeapYear y then 29 else 28
  | 4 => 30
  | 6 => 30
  | 9 => 30
  | 11 => 30
  | _ => 31

/-- A calendar date, the value of a `YYYY-MM-DD` string. -/
structure Date where
  year : Int
  month : Nat
  day : Nat
  month_pos : 1 ≤ month
  month_le : month ≤ 12
  day_pos : 1 ≤ day
  day_le : day ≤ daysInMonth year month
deriving DecidableEq

/-- Strict chronological order on dates (`dueDate < today` on `Date` objects). -/
def Date.blt (a b : Date) : Bool :=
  decide (a.year < b.year) ||
    (decide (a.year = b.year) &&
      (decide (a.month < b.month) || (decide (a.month = b.month) && decide (a.day < b.day))))

/-- Chronological order on dates, `a` on or before `b`. -/
def Date.ble (a b : Date) : Bool := !Date.blt b a

/-- The day after `d`. -/
def nextDay (d : Date) : Date :=
  if h : d.day < daysInMonth d.year d.month then
    ⟨d.year, d.month, d.day + 1, d.month_pos, d.month_le, by omega, by omega⟩
  else if hm : d.month < 12 then
    ⟨d.year, d.month + 1, 1, by omega, by omega, by omega,
      by unfold daysInMonth; split <;> (try split) <;> omega⟩
  else
    ⟨d.year + 1, 1, 1, by omega, by omega, by omega, by simp [daysInMonth]⟩

/-- The day before `d`. -/
def prevDay (d : Date) : Date :=
  if h : 1 < d.day then
    ⟨d.year, d.month, d.day - 1, d.month_pos, d.month_le, by omega,
      by have := d.day_le; omega⟩
  else if hm : 1 < d.month then
    ⟨d.year, d.month - 1, daysInMonth d.year (d.month - 1), by omega,
      by have := d.month_le; omega,
      by unfold daysInMonth; split <;> (try split) <;> omega, le_refl _⟩
  else
    ⟨d.year - 1, 12, 31, by omega, by omega, by omega, by simp [daysInMonth]⟩

/-- The date `n` days after `d`. -/
def addDays (d : Date) : Nat → Date
  | 0 => d
  | n + 1 => addDays (nextDay d) n

/-- The date `n` days before `d`. -/
def subDays (d : Date) : Nat → Date
  | 0 => d
  | n + 1 => subDays (prevDay d) n

/-- The date `k` days after `d`; before `d` when `k` is negative. -/
def shiftDays (d : Date) : Int → Date
  | Int.ofNat n => addDays d n
  | Int.negSucc n => subDays d (n + 1)

/-- An instant as written by `toISOString()`: the calendar date of its first
ten characters and the time within that day, in milliseconds. -/
structure Instant where
  date : Date
  timeOfDay : Nat
deriving DecidableEq

/-! ## Day numbers and time values -/

/-- Days from a fixed origin to the start of year `y`. -/
def daysBeforeYear (y : Int) : Int :=
  365 * y + (y - 1) / 4 - (y - 1) / 100 + (y - 1) / 400

/-- Days of year `y` that come before month `m`. -/
def daysBeforeMonth (y : Int) (m : Nat) : Nat :=
  (match m with
    | 1 => 0
    | 2 => 31
    | 3 => 59
    | 4 => 90
    | 5 => 120
    | 6 => 151
    | 7 => 181
    | 8 => 212
    | 9 => 243
    | 10 => 273
    | 11 => 304
    | _ => 334) + (if 2 < m ∧ isLeapYear y = true then 1 else 0)

/-- Days since 1970-01-01. -/
def Date.toDays (d : Date) : Int :=
  daysBeforeYear d.year + (daysBeforeMonth d.year d.month : Int) + (d.day : Int) - 719528

/-- Milliseconds in a day, `1000 * 60 * 60 * 24`. -/
def msPerDay : Int := 1000 * 60 * 60 * 24

/-- The time value of `new Date(dateString)`: milliseconds since the epoch at
midnight of that date. -/
def Date.getTime (d : Date) : Int := msPerDay * d.toDays

/-- The time value of an instant, in milliseconds since the epoch. -/
def Instant.getTime (i : Instant) : Int := i.date.getTime + (i.timeOfDay : Int)

/-! ## Data model -/

/-- A subtask: `{ id, text, completed }`. -/
structure Subtask where
  id : Nat
  text : String
  completed : Bool
deriving DecidableEq

/-- A task as built by `addTask`. -/
structure Task where
  id : Nat
  text : String
  dueDate : Option Date
  notes : String
  recurrenceRule : Option String
  completed : Bool
  createdAt : Instant
  completedAt : Option Instant
  subtasks : List Subtask
deriving DecidableEq

/-- The streak record `{ count, lastCompletionDate }`. The count is a
JavaScript number that holds an integer; arithmetic on it is `jsAdd` and
`jsSub`. -/
structure StreakInfo where
  count : Int
  lastCompletionDate : Option Date
deriving DecidableEq

/-- JavaScript truthiness of an optional numeric id: `null` and `0` are falsy. -/
def jsTruthyId : Option Nat → Bool
  | some (_ + 1) => true
  | _ => false

/-- JavaScript truthiness of an optional string: `null` and `""` are falsy. -/
def jsTruthyStr : Option String → Bool
  | some s => decide (s ≠ "")
  | none => false

/-- The test `task.recurrenceRule` used as a condition. -/
def hasRecurrence (task : Task) : Bool := jsTruthyStr task.recurrenceRule

/-- The test `task.completedAt && task.completedAt.startsWith(day)`. -/
def completedAtOn (task : Task) (day : Date) : Bool :=
  match task.completedAt with
  | some at_ => decide (at_.date = day)
  | none => false

/-- The test `task.completedAt && !task.completedAt.startsWith(day)`. -/
def completedAtNotOn (task : Task) (day : Date) : Bool :=
  match task.completedAt with
  | some at_ => decide (at_.date ≠ day)
  | none => false

/-! ## Task repository (`App.jsx`, lines 282 to 442) -/

/-- The record `newTask` of `addTask`; `id` is `Date.now()`. -/
def newTask (id : Nat) (now : Instant) (text : String) (dueDate : Option Date)
    (notes : String) (recurrenceRule : Option String) : Task :=
  { id := id
    text := text
    dueDate := dueDate
    notes := notes
    recurrenceRule := if jsTruthyStr recurrenceRule then recurrenceRule else none
    completed := false
    createdAt := now
    completedAt := none
    subtasks := [] }

/-- Function `addTask`: append the new task. -/
def addTask (prevTasks : List Task) (id : Nat) (now : Instant) (text : String)
    (dueDate : Option Date) (notes : String) (recurrenceRule : Option String) : List Task :=
  prevTasks ++ [newTask id now text dueDate notes recurrenceRule]

/-- The body of the `map` callback of `toggleComplete` for a task whose id matched. -/
def toggleTask (task : Task) (subtaskId : Option Nat) (now : Instant) : Task :=
  let wasCompleted := task.completed
  let newCompletedStatus := !wasCompleted
  if jsTruthyId subtaskId then
    let updatedSubtasks := task.subtasks.map fun sub =>
      if some sub.id = subtaskId then { sub with completed := !sub.completed } else sub
    let taskToUpdate := { task with subtasks := updatedSubtasks }
    let parentNowComplete :=
      decide (updatedSubtasks.length > 0) && updatedSubtasks.all fun sub => sub.completed
    if parentNowComplete && !wasCompleted then
      { taskToUpdate with completed := true, completedAt := some now }
    else if (updatedSubtasks.any fun sub => !sub.completed) && wasCompleted then
      { taskToUpdate with completed := false, completedAt := none }
    else
      taskToUpdate
  else
    let taskToUpdate :=
      { task with
        completed := newCompletedStatus
        completedAt := if newCompletedStatus then some now else none }
    if newCompletedStatus then
      taskToUpdate
    else
      { taskToUpdate with
        subtasks := task.subtasks.map fun sub => { sub with completed := false } }

/-- Function `toggleComplete(taskId, subtaskId = null)`. -/
def toggleComplete (prevTasks : List Task) (taskId : Nat) (subtaskId : Option Nat)
    (now : Instant) : List Task :=
  prevTasks.map fun task => if task.id = taskId then toggleTask task subtaskId now else task

/-- Function `deleteTask(taskId, subtaskId = null)`. -/
def deleteTask (prevTasks : List Task) (taskId : Nat) (subtaskId : Option Nat) : List Task :=
  if jsTruthyId subtaskId then
    prevTasks.map fun task =>
      if task.id = taskId then
        { task with subtasks := task.subtasks.filter fun sub => decide (some sub.id ≠ subtaskId) }
      else task
  else
    prevTasks.filter fun task => decide (task.id ≠ taskId)

/-- Function `clearTaskHistory`; `confirmed` is the answer of `window.confirm`. -/
def clearTaskHistory (confirmed : Bool) (prevTasks : List Task) : List Task :=
  if confirmed then
    prevTasks.filter fun task => !task.completed || (task.completed && hasRecurrence task)
  else
    prevTasks

/-! ## Recurrence rules (package `rrule`) -/

/-- Frequencies of the recurrence rules the task form can write. -/
inductive Frequency where
  | DAILY
  | WEEKLY
  | MONTHLY
deriving DecidableEq

/-- Modelled from the spec: the `rrule` package is a dependency and is not
among the sources. A rule has a starting point (the original due date), a
frequency DAILY, WEEKLY or MONTHLY, an interval (every Nth period) and an
optional number of occurrences. -/
structure RRule where
  dtstart : Date
  freq : Frequency
  interval : Nat
  count : Option Nat
deriving DecidableEq

/-- Options collected while reading the `RRULE:` line. -/
structure RRuleOptions where
  freq : Option Frequency
  interval : Nat
  count : Option Nat
deriving DecidableEq

/-- Split a character list at every occurrence of `sep`. -/
def splitOnChar (sep : Char) : List Char → List (List Char)
  | [] => [[]]
  | c :: cs =>
    if c = sep then [] :: splitOnChar sep cs
    else
      match splitOnChar sep cs with
      | [] => [[c]]
      | p :: ps => (c :: p) :: ps

/-- Read decimal digits onto an accumulator; `none` on any other character. -/
def parseDigits (acc : Nat) : List Char → Option Nat
  | [] => some acc
  | c :: cs =>
    if '0' ≤ c ∧ c ≤ '9' then parseDigits (acc * 10 + (c.toNat - '0'.toNat)) cs else none

/-- A non-empty run of decimal digits as a number. -/
def parseNumber (cs : List Char) : Option Nat :=
  match cs with
  | [] => none
  | _ :: _ => parseDigits 0 cs

/-- Modelled from the spec: one `KEY=VALUE` attribute of a rule. The keys are
`FREQ` (DAILY, WEEKLY, MONTHLY), `INTERVAL` (a positive number) and `COUNT`;
any other text makes `RRule.fromString` throw, which is `none` here. -/
def parseAttr (opts : RRuleOptions) (attr : List Char) : Option RRuleOptions :=
  match splitOnChar '=' attr with
  | [key, value] =>
    if key = "FREQ".data then
      if value = "DAILY".data then some { opts with freq := some Frequency.DAILY }
      else if value = "WEEKLY".data then some { opts with freq := some Frequency.WEEKLY }
      else if value = "MONTHLY".data then some { opts with freq := some Frequency.MONTHLY }
      else none
    else if key = "INTERVAL".data then
      match parseNumber value with
      | some (n + 1) => some { opts with interval := n + 1 }
      | _ => none
    else if key = "COUNT".data then
      match parseNumber value with
      | some n => some { opts with count := some n }
      | none => none
    else none
  | _ => none

/-- Read the attributes of a rule from left to right. -/
def parseAttrs (opts : RRuleOptions) : List (List Char) → Option RRuleOptions
  | [] => some opts
  | attr :: rest =>
    match parseAttr opts attr with
    | some opts1 => parseAttrs opts1 rest
    | none => none

/-- Modelled from the spec: `RRule.fromString` on the text
`DTSTART:<dueDate>T000000Z`, newline, `RRULE:<ruleText>`; `none` when the
package throws (malformed expression, missing frequency). -/
def RRule.fromString (dtstart : Date) (ruleText : String) : Option RRule :=
  match parseAttrs ⟨none, 1, none⟩ (splitOnChar ';' ruleText.data) with
  | some opts =>
    match opts.freq with
    | some freq => some ⟨dtstart, freq, opts.interval, opts.count⟩
    | none => none
  | none => none

/-- Year reached `total` months after January of year `y`. -/
def monthYear (y : Int) (total : Nat) : Int := y + ((total / 12 : Nat) : Int)

/-- Month number (1 to 12) reached `total` months after January. -/
def monthOfTotal (total : Nat) : Nat := total % 12 + 1

/-- Modelled from the spec: the day-of-month of `dtstart`, `months` months
later; a month that does not have that day yields no occurrence. -/
def monthlyCandidate (dtstart : Date) (months : Nat) : Option Date :=
  if h : dtstart.day ≤ daysInMonth (monthYear dtstart.year (dtstart.month - 1 + months))
      (monthOfTotal (dtstart.month - 1 + months)) then
    some ⟨monthYear dtstart.year (dtstart.month - 1 + months),
      monthOfTotal (dtstart.month - 1 + months), dtstart.day,
      by unfold monthOfTotal; omega, by unfold monthOfTotal; omega, dtstart.day_pos, h⟩
  else
    none

/-- Modelled from the spec: the occurrence of period `i` of a rule, counted
from the starting point. -/
def RRule.candidate (rule : RRule) (i : Nat) : Option Date :=
  match rule.freq with
  | Frequency.DAILY => some (addDays rule.dtstart (i * rule.interval))
  | Frequency.WEEKLY => some (addDays rule.dtstart (i * rule.interval * 7))
  | Frequency.MONTHLY => monthlyCandidate rule.dtstart (i * rule.interval)

/-- Walk the periods from `i` on and return the first occurrence, taken at
midnight UTC of its date, that is at or after the instant `start`;
`remaining` is what is left of `COUNT`. -/
def RRule.afterLoop (rule : RRule) (start : Instant) :
    Nat → Nat → Option Nat → Option Date
  | 0, _, _ => none
  | fuel + 1, i, remaining =>
    if remaining = some 0 then none
    else
      match rule.candidate i with
      | none => RRule.afterLoop rule start fuel (i + 1) remaining
      | some c =>
        if start.getTime ≤ c.getTime then some c
        else RRule.afterLoop rule start fuel (i + 1) (remaining.map fun n => n - 1)

/-- Number of periods worth visiting: every period advances by a day or more,
and `start` is less than `366 * (years apart + 1)` days after `dtstart`. -/
def searchFuel (dtstart : Date) (start : Instant) : Nat :=
  (start.date.year - dtstart.year).toNat * 366 + 367

/-- Modelled from the spec: `rule.after(start, true)`, the earliest occurrence
at or after the instant `start`, or `none` (JavaScript `null`) when there is
none. The occurrences of a rule read with `DTSTART:<date>T000000Z` fall on
midnight UTC, so an occurrence is named by its date. -/
def RRule.after (rule : RRule) (start : Instant) : Option Date :=
  RRule.afterLoop rule start (searchFuel rule.dtstart start) 0 rule.count

/-! ## Startup recurrence scan (`App.jsx`, lines 145 to 209) -/

/-- The object returned for a task that starts a new cycle: completion and
subtasks reset, due date replaced. -/
def resetTask (task : Task) (dueDate : Date) : Task :=
  { task with
    dueDate := some dueDate
    completed := false
    completedAt := none
    subtasks := task.subtasks.map fun sub => { sub with completed := false } }

/-- The instant 24 hours before `i` (`new Date(i.getTime() - 24 * 60 * 60 *
1000)`): the same time of day on the day before. -/
def dayBefore (i : Instant) : Instant := ⟨prevDay i.date, i.timeOfDay⟩

/-- The `map` callback of the startup effect: the task to keep and whether
`needsUpdate` was raised for it. The effect reads the clock twice: `today` is
the instant of local midnight (`new Date()` after `setHours(0, 0, 0, 0)`), and
`todayStr` is the UTC date string of `getTodayDateString()`. The due date is
the instant `new Date(task.dueDate + 'T00:00:00Z')`, midnight UTC. -/
def scanTask (today : Instant) (todayStr : Date) (task : Task) : Task × Bool :=
  match task.dueDate with
  | none => (task, false)
  | some dueDate =>
    if hasRecurrence task then
      if dueDate.getTime < today.getTime then
        match RRule.fromString dueDate (task.recurrenceRule.getD "") with
        | none => (task, false)
        | some rule =>
          match rule.after (dayBefore today) with
          | some nextDueDate =>
            if decide (dueDate ≠ nextDueDate) ||
                (task.completed && completedAtNotOn task todayStr) then
              (resetTask task nextDueDate, true)
            else (task, false)
          | none => (task, false)
      else if decide (dueDate = todayStr) && task.completed &&
          completedAtNotOn task todayStr then
        (resetTask task dueDate, true)
      else (task, false)
    else (task, false)

/-- The startup effect that advances overdue recurring tasks: the task list
after the effect and the final value of `needsUpdate`. `setTasks` is called
only when `needsUpdate` is set. -/
def advanceRecurringTasks (today : Instant) (todayStr : Date) (tasks : List Task) :
    List Task × Bool :=
  let results := tasks.map (scanTask today todayStr)
  let needsUpdate := results.any fun r => r.2
  (if needsUpdate then results.map (fun r => r.1) else tasks, needsUpdate)

/-! ## Streak calculator (`App.jsx`, lines 212 to 272) -/

/-- The test `tasks.some(task => !task.recurrenceRule && task.completed &&
task.completedAt?.startsWith(day))`. -/
def nonRecurringCompletedOn (tasks : List Task) (day : Date) : Bool :=
  tasks.any fun task => !hasRecurrence task && task.completed && completedAtOn task day

/-- Spacing of the doubles around the natural number `a`: 1 below
2^53 = 9007199254740992, and twice as much for every further binary digit.
The first argument bounds the number of halvings. -/
def doubleSpacing : Nat → Nat → Nat
  | 0, _ => 1
  | fuel + 1, a => if a < 9007199254740992 then 1 else 2 * doubleSpacing fuel (a / 2)

/-- The double nearest to the integer `n`, a tie going to the even
significand: the value JavaScript keeps for an arithmetic result `n`. Up to
2^53 in magnitude it is `n` itself. -/
def roundToDouble (n : Int) : Int :=
  let a := n.natAbs
  let q := doubleSpacing a a
  let m := a / q
  let r := a % q
  let up := decide (q < 2 * r) || (decide (2 * r = q) && decide (m % 2 = 1))
  let v : Int := (((if up then m + 1 else m) * q : Nat) : Int)
  if n < 0 then -v else v

/-- JavaScript `a + b` on numbers that hold integers. -/
def jsAdd (a b : Int) : Int := roundToDouble (a + b)

/-- JavaScript `a - b` on numbers that hold integers. -/
def jsSub (a b : Int) : Int := roundToDouble (a - b)

/-- Function `getTodayDateString`: `new Date().toISOString().slice(0, 10)`,
the UTC date of the clock reading `now`. -/
def getTodayDateString (now : Instant) : Date := now.date

/-- The string `yesterdayStr` of `updateStreak`: `yesterday = new Date()`,
`yesterday.setDate(yesterday.getDate() - 1)`, then
`yesterday.toISOString().slice(0, 10)`. `setDate` steps back one local
calendar day at the same wall-clock time, so the instant reached is `now`
minus 24 hours plus `offsetChange`, the zone offset in force now minus the
zone offset in force at that wall-clock time a local day earlier, in
milliseconds (0 unless a daylight-saving change lies between the two). The
result is the UTC date of that instant. -/
def yesterdayDateString (now : Instant) (offsetChange : Int) : Date :=
  shiftDays now.date (((now.timeOfDay : Int) + offsetChange) / msPerDay - 1)

/-- Function `updateStreak`: the streak record after the recalculation.
`todayStr` and `yesterdayStr` are the two strings the function derives from
the clock, `getTodayDateString` and `yesterdayDateString`. -/
def updateStreak (tasks : List Task) (todayStr yesterdayStr : Date)
    (streakInfo : StreakInfo) : StreakInfo :=
  let nonRecurringCompletedToday := nonRecurringCompletedOn tasks todayStr
  if nonRecurringCompletedToday then
    if streakInfo.lastCompletionDate ≠ some todayStr then
      if streakInfo.lastCompletionDate = some yesterdayStr then
        ⟨jsAdd streakInfo.count 1, some todayStr⟩
      else
        ⟨1, some todayStr⟩
    else
      streakInfo
  else
    if streakInfo.lastCompletionDate = some todayStr then
      if decide (streakInfo.count > 1) && nonRecurringCompletedOn tasks yesterdayStr then
        ⟨jsSub streakInfo.count 1, some yesterdayStr⟩
      else
        ⟨0, none⟩
    else
      streakInfo

/-- The condition of the specification: there is a task with no recurrence
rule, completed, with `completedAt` on `day`. -/
def completedNonRecurringOn (tasks : List Task) (day : Date) : Prop :=
  ∃ t ∈ tasks, hasRecurrence t = false ∧ t.completed = true ∧
    t.completedAt.map Instant.date = some day

instance (tasks : List Task) (day : Date) : Decidable (completedNonRecurringOn tasks day) := by
  unfold completedNonRecurringOn
  exact inferInstance

/-- The streak recalculation as the specification words it: four cases on
whether a non-recurring task was completed today and whether the streak was
already counted for today; yesterday is the day before today, and `count + 1`
and `count - 1` are JavaScript arithmetic. -/
def updateStreakSpec (tasks : List Task) (today : Date) (s : StreakInfo) : StreakInfo :=
  let yesterday := prevDay today
  match decide (completedNonRecurringOn tasks today),
      decide (s.lastCompletionDate = some today) with
  | true, false =>
    ⟨if s.lastCompletionDate = some yesterday then jsAdd s.count 1 else 1, some today⟩
  | true, true => s
  | false, true =>
    if 1 < s.count ∧ completedNonRecurringOn tasks yesterday then
      ⟨jsSub s.count 1, some yesterday⟩
    else
      ⟨0, none⟩
  | false, false => s

/-! ## Missed-day check (`App.jsx`, lines 127 to 142) -/

/-- The effect that resets the streak if a day is missed: the streak record
after the effect. `Math.ceil(diffTime / (1000 * 60 * 60 * 24))` is the ceiling
division of the absolute difference of the two time values. -/
def resetStreakIfDayMissed (todayStr : Date) (streakInfo : StreakInfo) : StreakInfo :=
  match streakInfo.lastCompletionDate with
  | some lastCompletionDate =>
    if lastCompletionDate ≠ todayStr then
      let diffTime : Int := |todayStr.getTime - lastCompletionDate.getTime|
      let diffDays : Int := -((-diffTime) / msPerDay)
      if diffDays > 1 then ⟨0, none⟩ else streakInfo
    else streakInfo
  | none => streakInfo

/-- Function `resetStreak`; `confirmed` is the answer of `window.confirm`. -/
def resetStreak (confirmed : Bool) (streakInfo : StreakInfo) : StreakInfo :=
  if confirmed then ⟨0, none⟩ else streakInfo

/-! ## Text tests -/

/-- The characters `String.prototype.trim` removes: ECMAScript WhiteSpace and
LineTerminator code points. -/
def jsIsWhiteSpace (c : Char) : Bool :=
  c.toNat ∈ [9, 10, 11, 12, 13, 32, 160, 5760, 8232, 8233, 8239, 8287, 12288, 65279] ||
    (decide (8192 ≤ c.toNat) && decide (c.toNat ≤ 8202))

/-- The characters of `s.trim()`. -/
def trimChars (cs : List Char) : List Char :=
  ((cs.dropWhile jsIsWhiteSpace).reverse.dropWhile jsIsWhiteSpace).reverse

/-- The test `!s.trim()`: nothing is left after trimming. -/
def trimIsEmpty (s : String) : Bool := (trimChars s.data).isEmpty

/-! ## Subtasks (`App.jsx`, lines 406 to 420) -/

/-- Function `addSubtask(parentId, subtaskText)`; `id` is `Date.now()`. -/
def addSubtask (prevTasks : List Task) (parentId : Nat) (subtaskText : String) (id : Nat) :
    List Task :=
  if trimIsEmpty subtaskText then prevTasks
  else
    prevTasks.map fun task =>
      if task.id = parentId then
        { task with subtasks := task.subtasks ++ [⟨id, subtaskText, false⟩] }
      else task

/-! ## Sorting -/

/-- The method `Array.prototype.sort(compare)`, which is stable: with a
comparator that orders the elements consistently the result is the one
arrangement that is ordered and keeps equal elements in their original order.
Insertion from the right, placing each element before the first one it does
not come after, computes it. -/
def jsSort {α : Type} (compare : α → α → Int) (l : List α) : List α :=
  l.insertionSort fun a b => compare a b ≤ 0

/-! ## Weight log (`App.jsx`, lines 423 to 429, and `WeightTracker.jsx`) -/

/-- A weight entry `{ date, weight, id }`; the weight is the value of the
number. -/
structure WeightEntry where
  id : Nat
  date : Date
  weight : ℚ
deriving DecidableEq

/-- The comparator `(a, b) => new Date(a.date) - new Date(b.date)`. -/
def compareEntryDates (a b : WeightEntry) : Int := a.date.getTime - b.date.getTime

/-- Function `addWeightEntry`. -/
def addWeightEntry (prevEntries : List WeightEntry) (entry : WeightEntry) : List WeightEntry :=
  jsSort compareEntryDates (prevEntries ++ [entry])

/-- Function `deleteWeightEntry`. -/
def deleteWeightEntry (prevEntries : List WeightEntry) (entryId : Nat) : List WeightEntry :=
  prevEntries.filter fun entry => decide (entry.id ≠ entryId)

/-- Function `handleSubmit` of `WeightTracker.jsx`: the weight collection after
the form is submitted. `weightValue` is the result of `parseFloat(weight)`,
`none` for `NaN`; `date` is `none` for the empty string; `id` is `Date.now()`. -/
def WeightTracker.handleSubmit (weightEntries : List WeightEntry) (weightValue : Option ℚ)
    (date : Option Date) (id : Nat) : List WeightEntry :=
  match weightValue, date with
  | some w, some d =>
    if w = 0 ∨ w ≤ 0 then weightEntries
    else if weightEntries.any fun entry => decide (entry.date = d) then weightEntries
    else addWeightEntry weightEntries ⟨id, d, w⟩
  | _, _ => weightEntries

/-! ## Task list view (`TaskList.jsx`, lines 530 to 573) -/

/-- The filter `visibleTasksSource`: incomplete tasks and tasks completed today. -/
def visibleTasksSource (todayStr : Date) (tasks : List Task) : List Task :=
  tasks.filter fun task => if !task.completed then true else completedAtOn task todayStr

/-- Function `getTaskPriority`; `tomorrow` is the day after `today`. -/
def getTaskPriority (today : Date) (task : Task) : Nat :=
  match task.dueDate with
  | none => 5
  | some dueDate =>
    if dueDate.blt today then 1
    else if dueDate.getTime = today.getTime then 2
    else if dueDate.getTime = (nextDay today).getTime then 3
    else 4

/-- The time value of `new Date(task.dueDate)`; it is read only for tasks of
priority 1 or 4, which have a due date. -/
def dueTime (task : Task) : Int :=
  match task.dueDate with
  | some dueDate => dueDate.getTime
  | none => 0

/-- The comparator passed to `sort` for `sortedVisibleTasks`. -/
def compareTasks (today : Date) (a b : Task) : Int :=
  let priorityA := getTaskPriority today a
  let priorityB := getTaskPriority today b
  if priorityA ≠ priorityB then (priorityA : Int) - (priorityB : Int)
  else if priorityA = 1 then dueTime a - dueTime b
  else if priorityA = 4 then dueTime b - dueTime a
  else 0

/-- The list `sortedVisibleTasks`, which is the list displayed. -/
def sortedVisibleTasks (today : Date) (tasks : List Task) : List Task :=
  jsSort (compareTasks today) (visibleTasksSource today tasks)

/-! ## Task form (`TaskInput.jsx`, lines 12 to 39) -/

/-- The `switch` of `handleSubmit` from the dropdown value to the rule text. -/
def recurrenceRuleOf (recurrence : String) : Option String :=
  if recurrence = "daily" then some "FREQ=DAILY"
  else if recurrence = "weekly" then some "FREQ=WEEKLY"
  else if recurrence = "monthly" then some "FREQ=MONTHLY"
  else none

/-- Function `handleSubmit` of `TaskInput.jsx` followed by `addTask`: the task
list after the form is submitted. `dueDate` is `none` for the empty string and
`recurrence` is the value of the dropdown. -/
def TaskInput.handleSubmit (prevTasks : List Task) (taskText : String)
    (dueDate : Option Date) (notes : String) (recurrence : String) (id : Nat)
    (now : Instant) : List Task :=
  if trimIsEmpty taskText then prevTasks
  else if recurrence ≠ "" ∧ dueDate.isSome then
    addTask prevTasks id now taskText dueDate notes (recurrenceRuleOf recurrence)
  else if recurrence ≠ "" ∧ ¬ dueDate.isSome then prevTasks
  else addTask prevTasks id now taskText dueDate notes none

/-! ## Invariants of the data model -/

/-- The completion invariant of a task: `completed` true means `completedAt`
is set, `completed` false means `completedAt` is null. -/
def completionConsistent (task : Task) : Prop :=
  (task.completed = true → task.completedAt.isSome = true) ∧
    (task.completed = false → task.completedAt = none)

instance (task : Task) : Decidable (completionConsistent task) := by
  unfold completionConsistent
  exact inferInstance

/-- The parent/subtask invariant of a task: when it has subtasks, it is
completed exactly when all of them are. -/
def parentMatchesSubtasks (task : Task) : Prop :=
  task.subtasks ≠ [] → (task.completed = true ↔ ∀ sub ∈ task.subtasks, sub.completed = true)

instance (task : Task) : Decidable (parentMatchesSubtasks task) := by
  unfold parentMatchesSubtasks
  exact inferInstance

/-! ## Recurrence choices of the task form (`TaskInput.jsx`, lines 138 to 142) -/

/-- The `option` elements of the `Repeats` dropdown: value and label. -/
def recurrenceOptions : List (String × String) :=
  [("", "Never"), ("daily", "Daily"), ("weekly", "Weekly"), ("monthly", "Monthly"),
    ("FREQ=DAILY;INTERVAL=2", "Every 2nd day")]

/-! ## History view (`TaskHistory.jsx`, lines 33 to 35) -/

/-- The time value of `new Date(task.completedAt)`; it is read only for tasks
that passed the filter of the history view, which have `completedAt` set. -/
def completedTime (task : Task) : Int :=
  match task.completedAt with
  | some i => i.getTime
  | none => 0

/-- The comparator `(a, b) => new Date(b.completedAt) - new Date(a.completedAt)`. -/
def compareCompletedAt (a b : Task) : Int := completedTime b - completedTime a

/-- The list `completedTasks` shown by `TaskHistory`. -/
def completedTasks (tasks : List Task) : List Task :=
  jsSort compareCompletedAt
    (tasks.filter fun task => task.completed && task.completedAt.isSome && !hasRecurrence task)

/-! ## Loading the stored tasks (`App.jsx`, lines 42 to 53) -/

/-- A JavaScript string: the sequence of its UTF-16 code units, each a number
below 65536. -/
abbrev JsString := List Nat

/-- The UTF-16 code units of a code point: the code point itself in the Basic
Multilingual Plane, a surrogate pair beyond it. -/
def utf16Units (c : Char) : List Nat :=
  if c.toNat < 65536 then [c.toNat]
  else [55296 + (c.toNat - 65536) / 1024, 56320 + (c.toNat - 65536) % 1024]

/-- The JavaScript string that holds the text `s`. -/
def jsString (s : String) : JsString := s.data.flatMap utf16Units

/-- A value produced by `JSON.parse`. -/
inductive Json where
  | null
  | bool (b : Bool)
  | num (n : ℚ)
  | str (s : JsString)
  | arr (items : List Json)
  | obj (fields : List (JsString × Json))

/-- JavaScript truthiness of a parsed value. -/
def Json.truthy : Json → Bool
  | Json.null => false
  | Json.bool b => b
  | Json.num n => decide (n ≠ 0)
  | Json.str s => !s.isEmpty
  | Json.arr _ => true
  | Json.obj _ => true

/-- The value of the first field named `key`, `none` for `undefined`. -/
def lookupField (key : JsString) : List (JsString × Json) → Option Json
  | [] => none
  | (k, v) :: rest => if k = key then some v else lookupField key rest

/-- Assign `fields[key] = value`: an existing field keeps its place, a new one
goes last. -/
def setField (key : JsString) (value : Json) :
    List (JsString × Json) → List (JsString × Json)
  | [] => [(key, value)]
  | (k, v) :: rest => if k = key then (k, value) :: rest else (k, v) :: setField key value rest

/-- The own enumerable properties copied by the spread `{ ...t }`: the fields
of an object, the indexed elements of an array, the indexed UTF-16 code units
of a string (a character beyond the Basic Multilingual Plane gives two
properties), nothing for `null`, a boolean or a number. -/
def spreadFields : Json → List (JsString × Json)
  | Json.obj fields => fields
  | Json.arr items => items.enum.map fun p => (jsString (toString p.1), p.2)
  | Json.str s => s.enum.map fun p => (jsString (toString p.1), Json.str [p.2])
  | _ => []

/-- The read `t.subtasks`: the outer `none` is the `TypeError` thrown on
`null`, the inner `none` is `undefined`. -/
def readSubtasks : Json → Option (Option Json)
  | Json.null => none
  | Json.obj fields => some (lookupField (jsString "subtasks") fields)
  | _ => some none

/-- The `map` callback `t => ({ ...t, subtasks: t.subtasks || [] })`; `none`
when it throws. -/
def normalizeTask (t : Json) : Option Json :=
  match readSubtasks t with
  | none => none
  | some (some subtasks) =>
    some (Json.obj (setField (jsString "subtasks")
      (if subtasks.truthy then subtasks else Json.arr []) (spreadFields t)))
  | some none =>
    some (Json.obj (setField (jsString "subtasks") (Json.arr []) (spreadFields t)))

/-- The call `items.map(callback)` with a callback that may throw: `none` as
soon as one call throws. -/
def mapOrThrow (f : Json → Option Json) : List Json → Option (List Json)
  | [] => some []
  | t :: rest =>
    match f t with
    | none => none
    | some t' =>
      match mapOrThrow f rest with
      | none => none
      | some loaded => some (t' :: loaded)

/-- The initialiser of the `tasks` state. `storedTasks` is the result of
`localStorage.getItem`, `none` for `null`; `jsonParse` is `JSON.parse`, `none`
when it throws. Every exception ends in the `catch`, which returns `[]`. -/
def loadTasks (storedTasks : Option String) (jsonParse : String → Option Json) : List Json :=
  match (if jsTruthyStr storedTasks then jsonParse (storedTasks.getD "")
      else some (Json.arr [])) with
  | none => []
  | some (Json.arr items) =>
    match mapOrThrow normalizeTask items with
    | some loaded => loaded
    | none => []
  | some _ => []

/-- A loaded element has a `subtasks` sequence: it is an object whose field
`subtasks` is an array. -/
def hasSubtasksSequence : Json → Bool
  | Json.obj fields =>
    match lookupField (jsString "subtasks") fields with
    | some (Json.arr _) => true
    | _ => false
  | _ => false

/-! ## Invariant of the streak record -/

/-- The streak invariant: the count is not negative, and it is zero exactly
when there is no last completion date. -/
def streakConsistent (s : StreakInfo) : Prop :=
  0 ≤ s.count ∧ (s.count = 0 ↔ s.lastCompletionDate = none)

instance (s : StreakInfo) : Decidable (streakConsistent s) := by
  unfold streakConsistent
  exact inferInstance

/-! ## Sample data -/

/-- The date 2024-03-14. -/
def march14 : Date := ⟨2024, 3, 14, by decide, by decide, by decide, by decide⟩

/-- The date 2024-03-15. -/
def march15 : Date := ⟨2024, 3, 15, by decide, by decide, by decide, by decide⟩

/-- Noon on 2024-03-15. -/
def noonMarch15 : Instant := ⟨march15, 43200000⟩

/-- Midnight UTC at the start of 2024-03-15: local midnight of a clock kept
in UTC. -/
def midnightMarch15 : Instant := ⟨march15, 0⟩

/-- Local midnight of 2024-03-15 in New York (UTC-4 on that day), the instant
2024-03-15T04:00:00Z. -/
def newYorkMidnightMarch15 : Instant := ⟨march15, 14400000⟩

/-- The date 2024-02-01. -/
def february1 : Date := ⟨2024, 2, 1, by decide, by decide, by decide, by decide⟩

/-- An open task with one open subtask whose id is `0`. -/
def taskWithSubtaskZero : Task :=
  { id := 7
    text := "Pack"
    dueDate := none
    notes := ""
    recurrenceRule := none
    completed := false
    createdAt := ⟨march14, 0⟩
    completedAt := none
    subtasks := [⟨0, "Socks", false⟩] }

/-- An open task with two open subtasks. -/
def taskWithTwoSubtasks : Task :=
  { id := 7
    text := "Pack"
    dueDate := none
    notes := ""
    recurrenceRule := none
    completed := false
    createdAt := ⟨march14, 0⟩
    completedAt := none
    subtasks := [⟨11, "Socks", false⟩, ⟨12, "Shirts", true⟩] }

/-- The date 2024-01-01. -/
def january1 : Date := ⟨2024, 1, 1, by decide, by decide, by decide, by decide⟩

/-- The date 2024-03-01. -/
def march1 : Date := ⟨2024, 3, 1, by decide, by decide, by decide, by decide⟩

/-- The date 2024-03-10. -/
def march10 : Date := ⟨2024, 3, 10, by decide, by decide, by decide, by decide⟩

/-- The date 2024-04-01. -/
def april1 : Date := ⟨2024, 4, 1, by decide, by decide, by decide, by decide⟩

/-- The task of the rent scenario: due 2024-01-01, repeating monthly. -/
def payRent : Task :=
  { id := 1
    text := "Pay rent"
    dueDate := some january1
    notes := ""
    recurrenceRule := some "FREQ=MONTHLY"
    completed := false
    createdAt := ⟨january1, 0⟩
    completedAt := none
    subtasks := [] }

/-- A daily task that was due on 2024-03-10. -/
def waterPlants : Task :=
  { id := 2
    text := "Water plants"
    dueDate := some march10
    notes := ""
    recurrenceRule := some "FREQ=DAILY"
    completed := false
    createdAt := ⟨march1, 0⟩
    completedAt := none
    subtasks := [] }

/-- A one-off task completed on 2024-03-14. -/
def doneYesterday : Task :=
  { id := 3
    text := "Call bank"
    dueDate := none
    notes := ""
    recurrenceRule := none
    completed := true
    createdAt := ⟨march10, 0⟩
    completedAt := some ⟨march14, 36000000⟩
    subtasks := [] }

/-- A one-off task that is still open. -/
def openTask : Task :=
  { id := 4
    text := "Buy milk"
    dueDate := none
    notes := ""
    recurrenceRule := none
    completed := false
    createdAt := ⟨march14, 0⟩
    completedAt := none
    subtasks := [] }

/-- The date 2024-03-16. -/
def march16 : Date := ⟨2024, 3, 16, by decide, by decide, by decide, by decide⟩

/-- A completed task whose only subtask is completed. -/
def taskAllDone : Task :=
  { id := 7
    text := "Pack"
    dueDate := none
    notes := ""
    recurrenceRule := none
    completed := true
    createdAt := ⟨march14, 0⟩
    completedAt := some noonMarch15
    subtasks := [⟨12, "Shirts", true⟩] }

/-- A one-off task with the given id and due date, open. -/
def openTaskDue (id : Nat) (dueDate : Option Date) : Task :=
  { openTask with id := id, dueDate := dueDate }

/-- An open task with a completed subtask of id `0` and an open subtask. -/
def taskZeroDone : Task :=
  { id := 7
    text := "Pack"
    dueDate := none
    notes := ""
    recurrenceRule := none
    completed := false
    createdAt := ⟨march14, 0⟩
    completedAt := none
    subtasks := [⟨0, "Socks", true⟩, ⟨5, "Shirts", false⟩] }

/-- A task due on 2024-03-15 whose rule text is not a rule, completed the day
before. -/
def staleMalformed : Task :=
  { id := 5
    text := "Stretch"
    dueDate := some march15
    notes := ""
    recurrenceRule := some "every day"
    completed := true
    createdAt := ⟨march1, 0⟩
    completedAt := some ⟨march14, 36000000⟩
    subtasks := [] }

/-- A task due on 2024-03-15 whose rule has no occurrence at all, completed the
day before. -/
def staleExhausted : Task :=
  { staleMalformed with recurrenceRule := some "FREQ=DAILY;COUNT=0" }

/-- An overdue task whose rule text is not a rule. -/
def overdueMalformed : Task :=
  { waterPlants with id := 6, recurrenceRule := some "every day" }

/-- An overdue task whose rule ended after two occurrences. -/
def overdueExhausted : Task :=
  { waterPlants with id := 8, recurrenceRule := some "FREQ=DAILY;COUNT=2" }

/-- The date 2024-11-01. -/
def november1 : Date := ⟨2024, 11, 1, by decide, by decide, by decide, by decide⟩

/-- The date 2024-11-02. -/
def november2 : Date := ⟨2024, 11, 2, by decide, by decide, by decide, by decide⟩

/-- The date 2024-11-03, the day New York left daylight-saving time. -/
def november3 : Date := ⟨2024, 11, 3, by decide, by decide, by decide, by decide⟩

/-- The date 2024-11-04. -/
def november4 : Date := ⟨2024, 11, 4, by decide, by decide, by decide, by decide⟩

/-- The instant 2024-11-04T00:30:00Z, in New York 19:30 of 2024-11-03. -/
def newYorkEvening : Instant := ⟨november4, 1800000⟩

/-- The zone offset of New York at `newYorkEvening` (UTC-5) minus its offset
at 19:30 of the local day before (UTC-4), in milliseconds. -/
def newYorkOffsetChange : Int := -3600000

/-- A one-off task completed at the instant `at_`. -/
def doneAt (id : Nat) (at_ : Instant) : Task :=
  { id := id
    text := "Walk"
    dueDate := none
    notes := ""
    recurrenceRule := none
    completed := true
    createdAt := at_
    completedAt := some at_
    subtasks := [] }

/-- The task lists of four runs in New York, one on each of the days
2024-11-01 to 2024-11-04 (UTC dates), each holding a one-off task completed
at the time of the run. -/
def newYorkRuns : List (List Task × Instant × Int) :=
  [([doneAt 1 ⟨november1, 54000000⟩], ⟨november1, 54000000⟩, 0),
    ([doneAt 1 ⟨november1, 54000000⟩, doneAt 2 ⟨november2, 54000000⟩],
      ⟨november2, 54000000⟩, 0),
    ([doneAt 1 ⟨november1, 54000000⟩, doneAt 2 ⟨november2, 54000000⟩,
        doneAt 3 ⟨november3, 54000000⟩], ⟨november3, 54000000⟩, newYorkOffsetChange),
    ([doneAt 1 ⟨november1, 54000000⟩, doneAt 2 ⟨november2, 54000000⟩,
        doneAt 3 ⟨november3, 54000000⟩, doneAt 4 newYorkEvening],
      newYorkEvening, newYorkOffsetChange)]

/-- Running `updateStreak` at a sequence of clock readings, each with its task
list, its instant and its change of zone offset. -/
def streakAfterRuns (s : StreakInfo) : List (List Task × Instant × Int) → StreakInfo
  | [] => s
  | (tasks, now, offsetChange) :: rest =>
    streakAfterRuns
      (updateStreak tasks (getTodayDateString now) (yesterdayDateString now offsetChange) s)
      rest

/-! ## Task repository: theorems -/

theorem jsTruthyId_some {n : Nat} (h : n ≠ 0) : jsTruthyId (some n) = true := by
  cases n with
  | zero => exact absurd rfl h
  | succ k => rfl

/-- After the subtask path of `toggleTask`, a task that has subtasks is
completed exactly when all of them are. -/
theorem toggleTask_subtask_iff (task : Task) (subtaskId : Nat) (now : Instant)
    (hid : subtaskId ≠ 0) (hsub : task.subtasks ≠ []) :
    (toggleTask task (some subtaskId) now).completed = true ↔
      ∀ sub ∈ (toggleTask task (some subtaskId) now).subtasks, sub.completed = true := by
  have hne : (task.subtasks.map fun sub =>
      if some sub.id = some subtaskId then { sub with completed := !sub.completed } else sub)
      ≠ [] := by
    simpa using hsub
  have hlen : 0 < (task.subtasks.map fun sub =>
      if some sub.id = some subtaskId then { sub with completed := !sub.completed }
      else sub).length := List.length_pos.mpr hne
  unfold toggleTask
  simp only [jsTruthyId_some hid, if_true]
  generalize (task.subtasks.map fun sub =>
      if some sub.id = some subtaskId then { sub with completed := !sub.completed }
      else sub) = us at hne hlen ⊢
  by_cases hall : us.all (fun sub => sub.completed) = true
  · have hall' : ∀ sub ∈ us, sub.completed = true := by simpa using hall
    have hany : (us.any fun sub => !sub.completed) = false := by
      simpa using hall'
    cases hc : task.completed <;> simp [hall, hany, hlen] <;> exact hall'
  · have hall0 : us.all (fun sub => sub.completed) = false := by simpa using hall
    have hall' : ¬ ∀ sub ∈ us, sub.completed = true := by
      intro h; exact hall (by simpa using h)
    have hany : (us.any fun sub => !sub.completed) = true := by
      simp only [List.any_eq_true, Bool.not_eq_true']
      by_contra hcon
      apply hall'
      intro sub hs
      by_contra hsc
      exact hcon ⟨sub, hs, by simpa using hsc⟩
    cases hc : task.completed <;> simp [hall0, hany, hall']

/-- C1 (amended): for every non-zero subtask id, after
`toggleComplete(taskId, subtaskId)` every task with that id that has a subtask
is completed if and only if all of its subtasks are completed, whatever its
completed flag was before. -/
theorem toggleComplete_subtask_parent_iff (prevTasks : List Task) (taskId subtaskId : Nat)
    (now : Instant) (hid : subtaskId ≠ 0) :
    List.Forall₂
      (fun task task' => task.id = taskId → task.subtasks ≠ [] →
        (task'.completed = true ↔ ∀ sub ∈ task'.subtasks, sub.completed = true))
      prevTasks (toggleComplete prevTasks taskId (some subtaskId) now) := by
  unfold toggleComplete
  rw [List.forall₂_map_right_iff, List.forall₂_same]
  intro task _ htid hsub
  rw [if_pos htid]
  exact toggleTask_subtask_iff task subtaskId now hid hsub

/-- Witness for C1: toggling subtask 11 of a task with two subtasks. -/
theorem toggleComplete_subtask_parent_iff_witness :
    (11 : Nat) ≠ 0 ∧
    List.Forall₂
      (fun task task' => task.id = 7 → task.subtasks ≠ [] →
        (task'.completed = true ↔ ∀ sub ∈ task'.subtasks, sub.completed = true))
      [taskWithTwoSubtasks] (toggleComplete [taskWithTwoSubtasks] 7 (some 11) noonMarch15) :=
  ⟨by decide, toggleComplete_subtask_parent_iff [taskWithTwoSubtasks] 7 11 noonMarch15
    (by decide)⟩

/-- C1 as stated fails for the subtask id `0`: the guard `if (subtaskId)` sends
the call to the parent path, which completes the task and leaves its subtask
open. -/
theorem toggleComplete_subtask_zero_counterexample :
    ¬ List.Forall₂
      (fun task task' => task.id = 7 → task.subtasks ≠ [] →
        (task'.completed = true ↔ ∀ sub ∈ task'.subtasks, sub.completed = true))
      [taskWithSubtaskZero] (toggleComplete [taskWithSubtaskZero] 7 (some 0) noonMarch15) := by
  intro h
  have h1 := (List.forall₂_cons.mp h).1 rfl (by decide)
  exact absurd (h1.mp (by decide) ⟨0, "Socks", false⟩ (by decide)) (by decide)

/-- C2: for every completed task, `toggleComplete(taskId)` with no subtask id
yields a task with `completed = false`, `completedAt = null` and every subtask
incomplete. -/
theorem toggleComplete_uncomplete_parent (prevTasks : List Task) (taskId : Nat)
    (now : Instant) :
    List.Forall₂
      (fun task task' => task.id = taskId → task.completed = true →
        task'.completed = false ∧ task'.completedAt = none ∧
          ∀ sub ∈ task'.subtasks, sub.completed = false)
      prevTasks (toggleComplete prevTasks taskId none now) := by
  unfold toggleComplete
  rw [List.forall₂_map_right_iff, List.forall₂_same]
  intro task _ htid hc
  rw [if_pos htid]
  simp [toggleTask, jsTruthyId, hc]

/-- C3: a confirmed `clearTaskHistory` keeps exactly the tasks that are
incomplete or have a recurrence rule, in their original order: completed tasks
without a rule go, tasks with a rule stay, incomplete tasks stay. -/
theorem clearTaskHistory_confirmed (prevTasks : List Task) :
    clearTaskHistory true prevTasks =
        prevTasks.filter (fun task => !task.completed || hasRecurrence task) ∧
      List.Sublist (clearTaskHistory true prevTasks) prevTasks ∧
      (∀ task ∈ prevTasks, task.completed = true → hasRecurrence task = false →
        task ∉ clearTaskHistory true prevTasks) ∧
      (∀ task ∈ prevTasks, hasRecurrence task = true →
        task ∈ clearTaskHistory true prevTasks) ∧
      (∀ task ∈ prevTasks, task.completed = false →
        task ∈ clearTaskHistory true prevTasks) := by
  have hfilter : clearTaskHistory true prevTasks =
      prevTasks.filter (fun task => !task.completed || hasRecurrence task) := by
    unfold clearTaskHistory
    rw [if_pos rfl]
    apply List.filter_congr
    intro task _
    cases task.completed <;> simp
  refine ⟨hfilter, ?_, ?_, ?_, ?_⟩
  · rw [hfilter]; exact List.filter_sublist _
  · intro task _ hc hr
    rw [hfilter]
    simp [List.mem_filter, hc, hr]
  · intro task hmem hr
    rw [hfilter]
    simp [List.mem_filter, hmem, hr]
  · intro task hmem hc
    rw [hfilter]
    simp [List.mem_filter, hmem, hc]

/-! ## Startup recurrence scan: theorems -/

/-- An occurrence returned by the search is at or after the search start. -/
theorem afterLoop_ble (rule : RRule) (start : Instant) :
    ∀ (fuel i : Nat) (remaining : Option Nat) (n : Date),
      RRule.afterLoop rule start fuel i remaining = some n → start.getTime ≤ n.getTime
  | 0, _, _, _, h => by simp [RRule.afterLoop] at h
  | fuel + 1, i, remaining, n, h => by
    unfold RRule.afterLoop at h
    split at h
    · cases h
    · split at h
      · exact afterLoop_ble rule start fuel _ _ n h
      · split at h
        · cases h; assumption
        · exact afterLoop_ble rule start fuel _ _ n h

theorem after_ble (rule : RRule) (start : Instant) (n : Date)
    (h : rule.after start = some n) : start.getTime ≤ n.getTime :=
  afterLoop_ble rule start _ _ _ n h

theorem after_count_ne_zero (rule : RRule) (start : Instant) (n : Date)
    (h : rule.after start = some n) : rule.count ≠ some 0 := by
  intro hc
  unfold RRule.after searchFuel at h
  unfold RRule.afterLoop at h
  simp [hc] at h

theorem monthlyCandidate_zero (d : Date) : monthlyCandidate d 0 = some d := by
  have hm := d.month_pos
  have hm2 := d.month_le
  have hy : monthYear d.year (d.month - 1 + 0) = d.year := by
    unfold monthYear
    have : (d.month - 1 + 0) / 12 = 0 := by omega
    rw [this]; simp
  have hmo : monthOfTotal (d.month - 1 + 0) = d.month := by
    unfold monthOfTotal; omega
  unfold monthlyCandidate
  have hd : d.day ≤ daysInMonth (monthYear d.year (d.month - 1 + 0))
      (monthOfTotal (d.month - 1 + 0)) := by
    rw [hy, hmo]; exact d.day_le
  rw [dif_pos hd]
  cases d
  simp only [Option.some.injEq, Date.mk.injEq]
  exact ⟨hy, hmo, trivial⟩

/-- The first period of a rule is its starting point. -/
theorem candidate_zero (rule : RRule) : rule.candidate 0 = some rule.dtstart := by
  unfold RRule.candidate
  cases rule.freq <;> simp [addDays, monthlyCandidate_zero]

/-- A rule whose starting point is at or after the search start answers with
its starting point. -/
theorem after_dtstart (rule : RRule) (start : Instant) (hc : rule.count ≠ some 0)
    (hle : start.getTime ≤ rule.dtstart.getTime) : rule.after start = some rule.dtstart := by
  unfold RRule.after searchFuel
  unfold RRule.afterLoop
  simp [hc, candidate_zero, hle]

/-- Reading the same rule text under another starting point changes only the
starting point. -/
theorem fromString_dtstart (d n : Date) (text : String) (rule : RRule)
    (h : RRule.fromString d text = some rule) :
    RRule.fromString n text = some { rule with dtstart := n } := by
  unfold RRule.fromString at h ⊢
  cases hp : parseAttrs ⟨none, 1, none⟩ (splitOnChar ';' text.data) with
  | none => simp [hp] at h
  | some opts =>
    cases hf : opts.freq with
    | none => simp [hp, hf] at h
    | some freq =>
      simp only [hp, hf, Option.some.injEq] at h ⊢
      subst h
      rfl

theorem blt_irrefl (d : Date) : d.blt d = false := by
  simp [Date.blt]

/-- The two outcomes of the scan of one task: untouched, or reset onto a new
due date that either was found by the rule or is the due date it had, today. -/
theorem scanTask_cases (today : Instant) (todayStr : Date) (task : Task) :
    scanTask today todayStr task = (task, false) ∨
      ∃ due next, task.dueDate = some due ∧ hasRecurrence task = true ∧
        scanTask today todayStr task = (resetTask task next, true) ∧
        ((due.getTime < today.getTime ∧ ∃ rule,
            RRule.fromString due (task.recurrenceRule.getD "") = some rule ∧
            rule.after (dayBefore today) = some next) ∨
          (¬ due.getTime < today.getTime ∧ next = due)) := by
  cases hd : task.dueDate with
  | none => left; simp [scanTask, hd]
  | some due =>
    cases hr : hasRecurrence task with
    | false => left; simp [scanTask, hd, hr]
    | true =>
      by_cases hb : due.getTime < today.getTime
      · cases hf : RRule.fromString due (task.recurrenceRule.getD "") with
        | none => left; simp [scanTask, hd, hr, hb, hf]
        | some rule =>
          cases ha : rule.after (dayBefore today) with
          | none => left; simp [scanTask, hd, hr, hb, hf, ha]
          | some next =>
            by_cases hcond : (decide (due ≠ next) ||
                (task.completed && completedAtNotOn task todayStr)) = true
            · right
              refine ⟨due, next, rfl, rfl, ?_, Or.inl ⟨hb, rule, hf, ha⟩⟩
              unfold scanTask
              simp only [hd, hr, hb, hf, ha, if_true]
              rw [if_pos hcond]
            · left
              unfold scanTask
              simp only [hd, hr, hb, hf, ha, if_true]
              rw [if_neg hcond]
      · by_cases hcond : (decide (due = todayStr) && task.completed &&
            completedAtNotOn task todayStr) = true
        · right
          refine ⟨due, due, rfl, rfl, ?_, Or.inr ⟨hb, rfl⟩⟩
          unfold scanTask
          simp only [hd, hr, hb, if_true, if_false]
          rw [if_pos hcond]
        · left
          unfold scanTask
          simp only [hd, hr, hb, if_true, if_false]
          rw [if_neg hcond]

/-- Scanning the task that the scan produced changes nothing. -/
theorem scanTask_idem (today : Instant) (todayStr : Date) (task : Task) :
    scanTask today todayStr (scanTask today todayStr task).1 =
      ((scanTask today todayStr task).1, false) := by
  rcases scanTask_cases today todayStr task with h | ⟨due, next, _, hr, h, hcase⟩
  · rw [h]; exact h
  · rw [h]
    have hr2 : hasRecurrence (resetTask task next) = true := hr
    have hrule : (resetTask task next).recurrenceRule = task.recurrenceRule := rfl
    have hdue : (resetTask task next).dueDate = some next := rfl
    have hcomp : (resetTask task next).completed = false := rfl
    unfold scanTask
    simp only [hdue, hr2, hrule, hcomp, if_true, Bool.false_and, Bool.and_false, Bool.or_false]
    rcases hcase with ⟨_, rule, hf, ha⟩ | ⟨hnb, hn⟩
    · by_cases hb : next.getTime < today.getTime
      · simp only [hb, if_true]
        rw [fromString_dtstart due next _ rule hf]
        have hafter : RRule.after { rule with dtstart := next } (dayBefore today) = some next :=
          after_dtstart { rule with dtstart := next } (dayBefore today)
            (after_count_ne_zero rule _ _ ha) (after_ble rule _ _ ha)
        simp [hafter]
      · simp [hb]
    · subst hn
      simp [hnb]

theorem scanTask_unflagged (today : Instant) (todayStr : Date) (task : Task)
    (h : (scanTask today todayStr task).2 = false) :
    (scanTask today todayStr task).1 = task := by
  rcases scanTask_cases today todayStr task with h1 | ⟨_, _, _, _, h1, _⟩
  · rw [h1]
  · rw [h1] at h; cases h

/-- The list kept after the startup effect is the list of scanned tasks. -/
theorem advanceRecurringTasks_fst (today : Instant) (todayStr : Date) (tasks : List Task) :
    (advanceRecurringTasks today todayStr tasks).1 =
      tasks.map fun t => (scanTask today todayStr t).1 := by
  unfold advanceRecurringTasks
  simp only
  split
  · simp [List.map_map, Function.comp]
  · rename_i hany
    have hall : ∀ t ∈ tasks, (scanTask today todayStr t).2 = false := by
      intro t ht
      by_contra hc
      apply hany
      rw [List.any_eq_true]
      exact ⟨scanTask today todayStr t, List.mem_map_of_mem _ ht, by simpa using hc⟩
    symm
    conv_rhs => rw [← List.map_id tasks]
    apply List.map_congr_left
    intro t ht
    simpa using scanTask_unflagged today todayStr t (hall t ht)

/-- C4: the startup recurrence scan is idempotent: applied to its own output
with the same clock readings (the local midnight `today` and the UTC date
`todayStr`, whatever the time zone) it returns that output and raises no
update. -/
theorem advanceRecurringTasks_idempotent (today : Instant) (todayStr : Date)
    (tasks : List Task) :
    advanceRecurringTasks today todayStr (advanceRecurringTasks today todayStr tasks).1 =
      ((advanceRecurringTasks today todayStr tasks).1, false) := by
  have hflag : ∀ t ∈ (advanceRecurringTasks today todayStr tasks).1,
      (scanTask today todayStr t).2 = false := by
    intro t ht
    rw [advanceRecurringTasks_fst, List.mem_map] at ht
    obtain ⟨t0, _, rfl⟩ := ht
    rw [scanTask_idem]
  have hany : ((advanceRecurringTasks today todayStr tasks).1.map
      (scanTask today todayStr)).any (fun r => r.2) = false := by
    rw [Bool.eq_false_iff]
    intro h
    rw [List.any_eq_true] at h
    obtain ⟨r, hr, hr2⟩ := h
    rw [List.mem_map] at hr
    obtain ⟨t, ht, rfl⟩ := hr
    rw [hflag t ht] at hr2
    cases hr2
  generalize (advanceRecurringTasks today todayStr tasks).1 = out at hany
  unfold advanceRecurringTasks
  simp only [hany, Bool.false_eq_true, if_false]

/-- C5 at a failing input: a daily task due 2024-03-10, scanned on 2024-03-15
by a clock kept in UTC, is moved to 2024-03-14, the day before the reference
date, and so is still overdue after the scan. -/
theorem advanceRecurringTasks_daily_still_overdue :
    advanceRecurringTasks midnightMarch15 march15 [waterPlants] =
        ([{ waterPlants with dueDate := some march14 }], true) ∧
      march14.blt march15 = true := by
  decide

/-- C6 as stated fails: the rent task scanned on 2024-03-15 does not get the
due date 2024-03-01. -/
theorem advanceRecurringTasks_rent_counterexample :
    (advanceRecurringTasks midnightMarch15 march15 [payRent]).1.map Task.dueDate ≠
      [some march1] := by
  decide

theorem fromString_monthly :
    RRule.fromString january1 "FREQ=MONTHLY" = some ⟨january1, Frequency.MONTHLY, 1, none⟩ := by
  decide

/-- The monthly rule started on 2024-01-01, searched from any instant after
midnight of 2024-03-01 and up to midnight of 2024-04-01, answers 2024-04-01. -/
theorem after_monthly_rent (start : Instant) (h1 : march1.getTime < start.getTime)
    (h2 : start.getTime ≤ april1.getTime) :
    RRule.after ⟨january1, Frequency.MONTHLY, 1, none⟩ start = some april1 := by
  have e0 : monthlyCandidate january1 0 = some january1 := by decide
  have e1 : monthlyCandidate january1 1 = some february1 := by decide
  have e2 : monthlyCandidate january1 2 = some march1 := by decide
  have e3 : monthlyCandidate january1 3 = some april1 := by decide
  have g0 : january1.getTime < march1.getTime := by decide
  have g1 : february1.getTime < march1.getTime := by decide
  have n0 : ¬ start.getTime ≤ january1.getTime := by omega
  have n1 : ¬ start.getTime ≤ february1.getTime := by omega
  have n2 : ¬ start.getTime ≤ march1.getTime := by omega
  obtain ⟨f, hf⟩ : ∃ f, searchFuel january1 start = f + 4 :=
    ⟨(start.date.year - january1.year).toNat * 366 + 363, rfl⟩
  unfold RRule.after
  simp only [hf]
  simp [RRule.afterLoop, RRule.candidate, e0, e1, e2, e3, n0, n1, n2, h2]

/-- C6 (amended): a task due 2024-01-01 with rule `FREQ=MONTHLY`, whatever its
other fields, scanned on 2024-03-15 comes out due on 2024-04-01, not completed,
and the scan raises an update. The reference date is the local day: its
midnight `today` is an instant of 2024-03-14 or of 2024-03-15 in UTC, according
to the time zone, and the UTC date `todayStr` is any date. -/
theorem advanceRecurringTasks_rent (today : Instant) (todayStr : Date) (task : Task)
    (hday : today.date = march15 ∨ today.date = march14)
    (htime : today.timeOfDay < 86400000)
    (hdue : task.dueDate = some january1)
    (hrule : task.recurrenceRule = some "FREQ=MONTHLY") :
    advanceRecurringTasks today todayStr [task] = ([resetTask task april1], true) ∧
      (resetTask task april1).dueDate = some april1 ∧
      (resetTask task april1).completed = false := by
  have hrec : hasRecurrence task = true := by
    unfold hasRecurrence
    rw [hrule]
    decide
  have g14 : march14.getTime = 1710374400000 := by decide
  have g15 : march15.getTime = 1710460800000 := by decide
  have g13 : (prevDay march14).getTime = 1710288000000 := by decide
  have g14b : (prevDay march15).getTime = 1710374400000 := by decide
  have gj : january1.getTime = 1704067200000 := by decide
  have gm : march1.getTime = 1709251200000 := by decide
  have ga : april1.getTime = 1711929600000 := by decide
  have hblt : january1.getTime < today.getTime := by
    unfold Instant.getTime
    rcases hday with h | h <;> rw [h] <;> omega
  have hafter : RRule.after ⟨january1, Frequency.MONTHLY, 1, none⟩ (dayBefore today) =
      some april1 := by
    apply after_monthly_rent <;> unfold dayBefore Instant.getTime <;>
      rcases hday with h | h <;> simp only [h] <;> omega
  have hne : decide (january1 ≠ april1) = true := by decide
  have hscan : scanTask today todayStr task = (resetTask task april1, true) := by
    unfold scanTask
    simp only [hdue, hrec, hblt, hrule, Option.getD_some, fromString_monthly,
      hafter, hne, Bool.true_or, if_true]
  refine ⟨?_, rfl, rfl⟩
  unfold advanceRecurringTasks
  simp [hscan]

/-- Witness for C6: the rent task itself, scanned by a clock kept in UTC. -/
theorem advanceRecurringTasks_rent_witness :
    payRent.dueDate = some january1 ∧ payRent.recurrenceRule = some "FREQ=MONTHLY" ∧
      advanceRecurringTasks midnightMarch15 march15 [payRent] =
        ([resetTask payRent april1], true) ∧
      (resetTask payRent april1).dueDate = some april1 ∧
      (resetTask payRent april1).completed = false :=
  ⟨rfl, rfl, advanceRecurringTasks_rent midnightMarch15 march15 payRent (Or.inl rfl)
    (by decide) rfl rfl⟩

/-! ## Streak calculator: theorems -/

theorem date_eq_of_fields {a b : Date} (hy : a.year = b.year) (hm : a.month = b.month)
    (hd : a.day = b.day) : a = b := by
  cases a
  cases b
  simp only [Date.mk.injEq]
  exact ⟨hy, hm, hd⟩

/-- Yesterday is never today. -/
theorem prevDay_ne (d : Date) : prevDay d ≠ d := by
  intro h
  have hy := congrArg Date.year h
  have hm := congrArg Date.month h
  have hd := congrArg Date.day h
  unfold prevDay at hy hm hd
  split_ifs at hy hm hd with h1 h2
  · simp only at hd; omega
  · simp only at hm; omega
  · simp only at hy; omega

/-- The day before the day after `d` is `d`. -/
theorem prevDay_nextDay (d : Date) : prevDay (nextDay d) = d := by
  have hpos := d.day_pos
  have hle := d.day_le
  have hmle := d.month_le
  have hmpos := d.month_pos
  unfold nextDay
  split_ifs with h1 h2
  · unfold prevDay
    rw [dif_pos (by simp only; omega)]
    apply date_eq_of_fields <;> simp
  · unfold prevDay
    rw [dif_neg (by simp only; omega), dif_pos (by simp only; omega)]
    apply date_eq_of_fields
    · rfl
    · simp
    · simp only [Nat.add_sub_cancel]; omega
  · unfold prevDay
    rw [dif_neg (by simp only; omega), dif_neg (by simp only; omega)]
    have hm12 : d.month = 12 := by omega
    have h31 : daysInMonth d.year d.month = 31 := by rw [hm12]; simp [daysInMonth]
    apply date_eq_of_fields
    · simp
    · simp only; omega
    · simp only; omega

/-- The executable test of the code and the condition of the specification
agree. -/
theorem nonRecurringCompletedOn_iff (tasks : List Task) (day : Date) :
    nonRecurringCompletedOn tasks day = true ↔ completedNonRecurringOn tasks day := by
  unfold nonRecurringCompletedOn completedNonRecurringOn
  rw [List.any_eq_true]
  constructor
  · rintro ⟨t, ht, h⟩
    refine ⟨t, ht, ?_⟩
    unfold completedAtOn at h
    cases hat : t.completedAt with
    | none => simp [hat] at h
    | some i => simpa [hat, and_assoc] using h
  · rintro ⟨t, ht, hr, hc, hat⟩
    refine ⟨t, ht, ?_⟩
    unfold completedAtOn
    cases hi : t.completedAt with
    | none => simp [hi] at hat
    | some i =>
      simp only [hi, Option.map_some', Option.some.injEq] at hat
      simp [hr, hc, hat]

theorem doubleSpacing_pos : ∀ fuel a, 1 ≤ doubleSpacing fuel a
  | 0, _ => by simp [doubleSpacing]
  | fuel + 1, a => by
    unfold doubleSpacing
    split
    · exact le_refl _
    · have := doubleSpacing_pos fuel (a / 2); omega

theorem doubleSpacing_le : ∀ fuel a, 1 ≤ a → doubleSpacing fuel a ≤ a
  | 0, _, h => by simpa [doubleSpacing] using h
  | fuel + 1, a, h => by
    unfold doubleSpacing
    split
    · exact h
    · have := doubleSpacing_le fuel (a / 2) (by omega); omega

theorem doubleSpacing_small (fuel a : Nat) (h : a < 9007199254740992) :
    doubleSpacing fuel a = 1 := by
  cases fuel <;> simp [doubleSpacing, h]

/-- Below 2^53 in magnitude every integer is a double. -/
theorem roundToDouble_exact (n : Int) (h : n.natAbs < 9007199254740992) :
    roundToDouble n = n := by
  unfold roundToDouble
  simp only [doubleSpacing_small _ _ h, Nat.div_one, Nat.mod_one, Nat.mul_zero, Nat.mul_one,
    Nat.not_lt_zero, decide_False, Bool.false_or, Nat.zero_ne_one, Bool.false_and,
    Bool.false_eq_true, if_false]
  split <;> omega

/-- Rounding keeps a positive integer positive. -/
theorem roundToDouble_pos (n : Int) (h : 1 ≤ n) : 1 ≤ roundToDouble n := by
  unfold roundToDouble
  have ha : 1 ≤ n.natAbs := by omega
  have hq := doubleSpacing_pos n.natAbs n.natAbs
  have hle := doubleSpacing_le n.natAbs n.natAbs ha
  have hm : 1 ≤ n.natAbs / doubleSpacing n.natAbs n.natAbs := Nat.div_pos hle hq
  simp only
  rw [if_neg (by omega)]
  have : 1 ≤ (if (decide (doubleSpacing n.natAbs n.natAbs <
        2 * (n.natAbs % doubleSpacing n.natAbs n.natAbs)) ||
      (decide (2 * (n.natAbs % doubleSpacing n.natAbs n.natAbs) =
          doubleSpacing n.natAbs n.natAbs) &&
        decide (n.natAbs / doubleSpacing n.natAbs n.natAbs % 2 = 1))) = true
      then n.natAbs / doubleSpacing n.natAbs n.natAbs + 1
      else n.natAbs / doubleSpacing n.natAbs n.natAbs) *
      doubleSpacing n.natAbs n.natAbs := by
    split
    · exact Nat.mul_pos (by omega) hq
    · exact Nat.mul_pos hm hq
  exact_mod_cast this

/-- Adding one is exact from -2^53 up to 2^53 - 1. -/
theorem jsAdd_one_exact (c : Int) (hlo : -9007199254740992 ≤ c) (hhi : c < 9007199254740992) :
    jsAdd c 1 = c + 1 := by
  unfold jsAdd
  by_cases h : c + 1 = 9007199254740992
  · rw [h]; decide
  · exact roundToDouble_exact _ (by omega)

/-- Subtracting one is exact from -2^53 + 1 up to 2^53. -/
theorem jsSub_one_exact (c : Int) (hlo : -9007199254740992 < c) (hhi : c ≤ 9007199254740992) :
    jsSub c 1 = c - 1 := by
  unfold jsSub
  by_cases h : c - 1 = -9007199254740992
  · rw [h]; decide
  · exact roundToDouble_exact _ (by omega)

/-- With no change of zone offset the yesterday string is the day before the
today string. -/
theorem yesterdayDateString_eq_prevDay (now : Instant) (h : now.timeOfDay < 86400000) :
    yesterdayDateString now 0 = prevDay (getTodayDateString now) := by
  unfold yesterdayDateString getTodayDateString msPerDay
  have hz : ((now.timeOfDay : Int) + 0) / (1000 * 60 * 60 * 24) - 1 = Int.negSucc 0 := by
    have : ((now.timeOfDay : Int) + 0) / (1000 * 60 * 60 * 24) = 0 := by omega
    rw [this]; rfl
  rw [hz]
  rfl

/-- C7 as stated fails in double arithmetic: at count 2^53, last counted
yesterday, a completion today leaves the count at 2^53, not at 2^53 + 1. -/
theorem updateStreak_count_counterexample :
    yesterdayDateString noonMarch15 0 = march14 ∧
      updateStreak [doneAt 1 noonMarch15] (getTodayDateString noonMarch15)
          (yesterdayDateString noonMarch15 0) ⟨9007199254740992, some march14⟩ =
        ⟨9007199254740992, some march15⟩ ∧
      (9007199254740992 : Int) ≠ 9007199254740992 + 1 := by
  decide

/-- C7 (amended): when the yesterday string of the clock is the day before
today, `updateStreak` is the case analysis of the specification, with
`count + 1` and `count - 1` taken in double arithmetic; these are the integers
`count + 1` and `count - 1` themselves while the count is below 2^53 in
magnitude. -/
theorem updateStreak_eq_spec (tasks : List Task) (today yesterdayStr : Date) (s : StreakInfo)
    (hclock : yesterdayStr = prevDay today) :
    updateStreak tasks today yesterdayStr s = updateStreakSpec tasks today s ∧
      (s.count.natAbs < 9007199254740992 →
        jsAdd s.count 1 = s.count + 1 ∧ jsSub s.count 1 = s.count - 1) := by
  refine ⟨?_, fun h => ⟨jsAdd_one_exact _ (by omega) (by omega),
    jsSub_one_exact _ (by omega) (by omega)⟩⟩
  subst hclock
  unfold updateStreak updateStreakSpec
  by_cases ht : completedNonRecurringOn tasks today
  · have hb : nonRecurringCompletedOn tasks today = true :=
      (nonRecurringCompletedOn_iff tasks today).mpr ht
    by_cases hl : s.lastCompletionDate = some today
    · simp [hb, ht, hl]
    · by_cases hy : s.lastCompletionDate = some (prevDay today) <;>
        simp [hb, ht, hl, hy, prevDay_ne today]
  · have hb : nonRecurringCompletedOn tasks today = false := by
      rw [Bool.eq_false_iff]
      intro h
      exact ht ((nonRecurringCompletedOn_iff tasks today).mp h)
    by_cases hl : s.lastCompletionDate = some today
    · by_cases hy : completedNonRecurringOn tasks (prevDay today)
      · have hyb : nonRecurringCompletedOn tasks (prevDay today) = true :=
          (nonRecurringCompletedOn_iff tasks _).mpr hy
        by_cases hc : 1 < s.count <;> simp [hb, ht, hl, hy, hyb, hc]
      · have hyb : nonRecurringCompletedOn tasks (prevDay today) = false := by
          rw [Bool.eq_false_iff]
          intro h
          exact hy ((nonRecurringCompletedOn_iff tasks _).mp h)
        simp [hb, ht, hl, hy, hyb]
    · simp [hb, ht, hl]

/-- Witness for C7: the clock at noon of 2024-03-15 with no change of zone
offset, a streak of 3 counted up to 2024-03-14. -/
theorem updateStreak_eq_spec_witness :
    yesterdayDateString noonMarch15 0 = prevDay (getTodayDateString noonMarch15) ∧
      updateStreak [doneAt 1 noonMarch15] (getTodayDateString noonMarch15)
          (yesterdayDateString noonMarch15 0) ⟨3, some march14⟩ =
        updateStreakSpec [doneAt 1 noonMarch15] (getTodayDateString noonMarch15)
          ⟨3, some march14⟩ ∧
      ((3 : Int).natAbs < 9007199254740992 →
        jsAdd 3 1 = 3 + 1 ∧ jsSub 3 1 = 3 - 1) :=
  ⟨by decide,
    updateStreak_eq_spec [doneAt 1 noonMarch15] (getTodayDateString noonMarch15)
      (yesterdayDateString noonMarch15 0) ⟨3, some march14⟩ (by decide)⟩

/-- C8: `updateStreak` is idempotent for a fixed task list and a fixed clock
reading, whatever the today string and the yesterday string are. -/
theorem updateStreak_idempotent (tasks : List Task) (today yesterdayStr : Date)
    (s : StreakInfo) :
    updateStreak tasks today yesterdayStr (updateStreak tasks today yesterdayStr s) =
      updateStreak tasks today yesterdayStr s := by
  unfold updateStreak
  cases hb : nonRecurringCompletedOn tasks today with
  | true =>
    by_cases hl : s.lastCompletionDate = some today
    · simp [hl]
    · by_cases hy : s.lastCompletionDate = some yesterdayStr
      · have hne : ¬ some yesterdayStr = some today := by rw [← hy]; exact hl
        simp only [if_true, ne_eq, hy, hne, not_false_eq_true, not_true_eq_false, if_false]
      · simp only [if_true, ne_eq, hl, not_false_eq_true, hy, if_false, not_true_eq_false]
  | false =>
    by_cases hl : s.lastCompletionDate = some today
    · by_cases hc : (decide (s.count > 1) &&
          nonRecurringCompletedOn tasks yesterdayStr) = true
      · have hne : some yesterdayStr ≠ some today := by
          intro h
          rw [Option.some.inj h, hb] at hc
          simp at hc
        simp only [Bool.false_eq_true, if_false, hl, if_true, hc, hne]
      · simp only [Bool.false_eq_true, if_false, hl, if_true, hc]
        simp
    · simp [hl]

/-- One day of a running streak: the streak was last counted on the day the
clock calls yesterday and a non-recurring task is completed today. -/
theorem updateStreak_continue (tasks : List Task) (today yesterdayStr : Date) (c : Int)
    (hne : yesterdayStr ≠ today) (h : completedNonRecurringOn tasks today) :
    updateStreak tasks today yesterdayStr ⟨c, some yesterdayStr⟩ =
      ⟨jsAdd c 1, some today⟩ := by
  have hb := (nonRecurringCompletedOn_iff tasks today).mpr h
  unfold updateStreak
  simp [hb, hne]

/-- C9 at a failing input: four runs in New York on the UTC days 2024-11-01
to 2024-11-04, each with a one-off task completed on that day. After three
days the streak is (3, 2024-11-03). The fourth run is at 2024-11-04T00:30:00Z,
within a day of the end of daylight-saving time: the yesterday string is
2024-11-02, two days before today, so the run does not find the streak
counted yesterday and sets the count to 1, not to 4. -/
theorem streakAfterRuns_daylight_saving :
    streakAfterRuns ⟨0, none⟩ (newYorkRuns.take 3) = ⟨3, some november3⟩ ∧
      getTodayDateString newYorkEvening = november4 ∧
      prevDay november4 = november3 ∧
      yesterdayDateString newYorkEvening newYorkOffsetChange = november2 ∧
      updateStreak [doneAt 4 newYorkEvening] (getTodayDateString newYorkEvening)
          (yesterdayDateString newYorkEvening newYorkOffsetChange) ⟨3, some november3⟩ =
        ⟨1, some november4⟩ ∧
      streakAfterRuns ⟨0, none⟩ newYorkRuns = ⟨1, some november4⟩ := by
  decide

/-- C10 as stated fails in double arithmetic: at count 2^53, last counted
yesterday, a completion today gives the count 2^53, not 2^53 + 1, and undoing
it gives 2^53 - 1, not the count before. -/
theorem updateStreak_round_trip_counterexample :
    updateStreak [doneYesterday, doneAt 9 noonMarch15] march15 march14
        ⟨9007199254740992, some march14⟩ ≠ ⟨9007199254740992 + 1, some march15⟩ ∧
      updateStreak [doneYesterday] march15 march14
          (updateStreak [doneYesterday, doneAt 9 noonMarch15] march15 march14
            ⟨9007199254740992, some march14⟩) =
        ⟨9007199254740991, some march14⟩ := by
  decide

/-- C10 (amended): when the yesterday string of the clock is the day before
today, with a streak of `c` (at least 1 and below 2^53) last counted
yesterday, completing a non-recurring task today gives `(c + 1, today)`; once
that completion is undone, with a non-recurring task completed yesterday
still in the list, the next run gives back `(c, yesterday)`. -/
theorem updateStreak_complete_then_undo (tasksDone tasksUndone : List Task)
    (today yesterdayStr : Date) (c : Int) (hc : 1 ≤ c) (hdouble : c < 9007199254740992)
    (hclock : yesterdayStr = prevDay today)
    (hdone : completedNonRecurringOn tasksDone today)
    (hundone : ¬ completedNonRecurringOn tasksUndone today)
    (hyesterday : completedNonRecurringOn tasksUndone (prevDay today)) :
    updateStreak tasksDone today yesterdayStr ⟨c, some (prevDay today)⟩ =
        ⟨c + 1, some today⟩ ∧
      updateStreak tasksUndone today yesterdayStr ⟨c + 1, some today⟩ =
        ⟨c, some (prevDay today)⟩ := by
  subst hclock
  have hadd : jsAdd c 1 = c + 1 := jsAdd_one_exact c (by omega) hdouble
  have hsub : jsSub (c + 1) 1 = c := by
    rw [jsSub_one_exact (c + 1) (by omega) (by omega)]; omega
  constructor
  · rw [updateStreak_continue tasksDone today (prevDay today) c (prevDay_ne today) hdone, hadd]
  · have hb : nonRecurringCompletedOn tasksUndone today = false := by
      rw [Bool.eq_false_iff]
      intro h
      exact hundone ((nonRecurringCompletedOn_iff tasksUndone today).mp h)
    have hy := (nonRecurringCompletedOn_iff tasksUndone (prevDay today)).mpr hyesterday
    have hgt : c + 1 > 1 := by omega
    unfold updateStreak
    simp [hb, hy, hgt, hsub]

/-- Witness for C10: count 3 on 2024-03-14; the open task is completed on
2024-03-15 through `toggleComplete` and then toggled back; the clock is read
at noon with no change of zone offset. -/
theorem updateStreak_complete_then_undo_witness :
    updateStreak (toggleComplete [doneYesterday, openTask] 4 none noonMarch15) march15
        (yesterdayDateString noonMarch15 0) ⟨3, some march14⟩ = ⟨4, some march15⟩ ∧
      updateStreak
        (toggleComplete (toggleComplete [doneYesterday, openTask] 4 none noonMarch15) 4 none
          noonMarch15)
        march15 (yesterdayDateString noonMarch15 0) ⟨4, some march15⟩ = ⟨3, some march14⟩ :=
  updateStreak_complete_then_undo
    (toggleComplete [doneYesterday, openTask] 4 none noonMarch15)
    (toggleComplete (toggleComplete [doneYesterday, openTask] 4 none noonMarch15) 4 none
      noonMarch15)
    march15 (yesterdayDateString noonMarch15 0) 3 (by decide) (by decide) (by decide)
    (by decide) (by decide) (by decide)

/-! ## Day numbers: theorems -/

theorem isLeapYear_iff (y : Int) :
    isLeapYear y = true ↔ (y % 4 = 0 ∧ (y % 100 ≠ 0 ∨ y % 400 = 0)) := by
  simp [isLeapYear]

theorem daysBeforeYear_succ (y : Int) :
    daysBeforeYear (y + 1) =
      daysBeforeYear y + 365 + (if isLeapYear y = true then 1 else 0) := by
  unfold daysBeforeYear
  by_cases h : isLeapYear y = true
  · rw [if_pos h]
    rw [isLeapYear_iff] at h
    omega
  · rw [if_neg h]
    rw [isLeapYear_iff] at h
    omega

theorem daysBeforeMonth_succ (y : Int) (m : Nat) (h1 : 1 ≤ m) (h2 : m < 12) :
    daysBeforeMonth y (m + 1) = daysBeforeMonth y m + daysInMonth y m := by
  by_cases h : isLeapYear y = true <;>
    (interval_cases m <;> simp [daysBeforeMonth, daysInMonth, h])

theorem daysBeforeMonth_twelve (y : Int) :
    (daysBeforeMonth y 12 : Int) + 31 = 365 + (if isLeapYear y = true then 1 else 0) := by
  by_cases h : isLeapYear y = true <;> simp [daysBeforeMonth, h]

/-- The day after has the next day number. -/
theorem toDays_nextDay (d : Date) : (nextDay d).toDays = d.toDays + 1 := by
  have hle := d.day_le
  have hmle := d.month_le
  have hmpos := d.month_pos
  unfold nextDay
  split_ifs with h1 h2
  · simp only [Date.toDays]; push_cast; ring
  · have hday : d.day = daysInMonth d.year d.month := by omega
    simp only [Date.toDays]
    rw [daysBeforeMonth_succ d.year d.month hmpos h2, hday]
    push_cast; ring
  · have hm12 : d.month = 12 := by omega
    have hday : d.day = 31 := by
      have : daysInMonth d.year d.month = 31 := by rw [hm12]; simp [daysInMonth]
      omega
    simp only [Date.toDays]
    rw [daysBeforeYear_succ, hm12, hday]
    have h1 : daysBeforeMonth (d.year + 1) 1 = 0 := by simp [daysBeforeMonth]
    have h12 := daysBeforeMonth_twelve d.year
    rw [h1]
    push_cast
    omega

/-- The day after the day before `d` is `d`. -/
theorem nextDay_prevDay (d : Date) : nextDay (prevDay d) = d := by
  have hpos := d.day_pos
  have hle := d.day_le
  have hmle := d.month_le
  have hmpos := d.month_pos
  unfold prevDay
  split_ifs with h1 h2
  · unfold nextDay
    rw [dif_pos (by simp only; omega)]
    apply date_eq_of_fields
    · rfl
    · rfl
    · simp only; omega
  · unfold nextDay
    rw [dif_neg (by simp), dif_pos (by simp only; omega)]
    apply date_eq_of_fields
    · rfl
    · simp only; omega
    · simp only; omega
  · unfold nextDay
    rw [dif_neg (by simp [daysInMonth]), dif_neg (by simp)]
    apply date_eq_of_fields
    · simp
    · simp only; omega
    · simp only; omega

/-- The day before has the previous day number. -/
theorem toDays_prevDay (d : Date) : (prevDay d).toDays = d.toDays - 1 := by
  have h := toDays_nextDay (prevDay d)
  rw [nextDay_prevDay] at h
  omega

theorem daysBeforeYear_mono {x y : Int} (h : x ≤ y) : daysBeforeYear x ≤ daysBeforeYear y := by
  unfold daysBeforeYear
  omega

theorem dayOfYear_le (d : Date) :
    (daysBeforeMonth d.year d.month : Int) + d.day ≤
      365 + (if isLeapYear d.year = true then 1 else 0) := by
  obtain ⟨y, m, dd, h1, h2, h3, h4⟩ := d
  simp only
  by_cases h : isLeapYear y = true <;>
    (interval_cases m <;> simp [daysBeforeMonth, daysInMonth, h] at h4 ⊢ <;> omega)

theorem daysBeforeMonth_mono (y : Int) {m n : Nat} (hm : 1 ≤ m) (hmn : m ≤ n) (hn : n ≤ 12) :
    daysBeforeMonth y m ≤ daysBeforeMonth y n := by
  induction n with
  | zero => omega
  | succ k ih =>
    by_cases hk : m = k + 1
    · rw [hk]
    · have h1 : m ≤ k := by omega
      have := ih h1 (by omega)
      rw [daysBeforeMonth_succ y k (by omega) (by omega)]
      omega

/-- An earlier date has a smaller day number. -/
theorem toDays_lt_of_blt {a b : Date} (h : a.blt b = true) : a.toDays < b.toDays := by
  unfold Date.blt at h
  simp only [Bool.or_eq_true, Bool.and_eq_true, decide_eq_true_eq] at h
  have hapos := a.day_pos
  have hbpos := b.day_pos
  rcases h with hy | ⟨hy, hm | ⟨hm, hd⟩⟩
  · have h1 := dayOfYear_le a
    have h2 := daysBeforeYear_succ a.year
    have h3 : daysBeforeYear (a.year + 1) ≤ daysBeforeYear b.year :=
      daysBeforeYear_mono (by omega)
    unfold Date.toDays
    omega
  · have h1 := daysBeforeMonth_succ a.year a.month a.month_pos (by have := b.month_le; omega)
    have h2 := daysBeforeMonth_mono a.year (m := a.month + 1) (n := b.month) (by omega)
      (by omega) b.month_le
    have h3 := a.day_le
    unfold Date.toDays
    rw [← hy]
    omega
  · unfold Date.toDays
    rw [hy, hm]
    omega

theorem blt_trichotomy (a b : Date) : a.blt b = true ∨ a = b ∨ b.blt a = true := by
  unfold Date.blt
  simp only [Bool.or_eq_true, Bool.and_eq_true, decide_eq_true_eq]
  rcases lt_trichotomy a.year b.year with hy | hy | hy
  · left; left; exact hy
  · rcases lt_trichotomy a.month b.month with hm | hm | hm
    · left; right; exact ⟨hy, Or.inl hm⟩
    · rcases lt_trichotomy a.day b.day with hd | hd | hd
      · left; right; exact ⟨hy, Or.inr ⟨hm, hd⟩⟩
      · right; left; exact date_eq_of_fields hy hm hd
      · right; right; right; exact ⟨hy.symm, Or.inr ⟨hm.symm, hd⟩⟩
    · right; right; right; exact ⟨hy.symm, Or.inl hm⟩
  · right; right; left; exact hy

/-- Two dates with the same day number are the same date. -/
theorem toDays_injective {a b : Date} (h : a.toDays = b.toDays) : a = b := by
  rcases blt_trichotomy a b with h1 | h1 | h1
  · have := toDays_lt_of_blt h1; omega
  · exact h1
  · have := toDays_lt_of_blt h1; omega

/-- The chronological order is the order of the day numbers. -/
theorem blt_iff_toDays_lt (a b : Date) : a.blt b = true ↔ a.toDays < b.toDays := by
  constructor
  · exact toDays_lt_of_blt
  · intro h
    rcases blt_trichotomy a b with h1 | h1 | h1
    · exact h1
    · rw [h1] at h; omega
    · have := toDays_lt_of_blt h1; omega

theorem ble_iff_toDays_le (a b : Date) : a.ble b = true ↔ a.toDays ≤ b.toDays := by
  unfold Date.ble
  rw [Bool.not_eq_true', ← Bool.not_eq_true, blt_iff_toDays_lt]
  omega

theorem getTime_eq_iff (a b : Date) : a.getTime = b.getTime ↔ a = b := by
  unfold Date.getTime msPerDay
  constructor
  · intro h
    exact toDays_injective (by omega)
  · intro h
    rw [h]

/-! ## Missed-day check: theorems -/

/-- The number of days computed by the missed-day check exceeds one exactly
when the two day numbers are more than one apart. -/
theorem diffDays_gt_one_iff (t l : Int) :
    -((-|msPerDay * t - msPerDay * l|) / msPerDay) > 1 ↔ (t - l > 1 ∨ l - t > 1) := by
  unfold msPerDay
  rcases abs_cases ((1000 * 60 * 60 * 24 : Int) * t - 1000 * 60 * 60 * 24 * l) with
    ⟨h, _⟩ | ⟨h, _⟩ <;> rw [h] <;> constructor <;> intro _ <;> omega

/-- C11 as stated fails: a streak whose last completion date is tomorrow, which
is neither today nor yesterday, is not reset. -/
theorem resetStreakIfDayMissed_tomorrow_counterexample :
    march16 ≠ march15 ∧ march16 ≠ prevDay march15 ∧
      resetStreakIfDayMissed march15 ⟨3, some march16⟩ ≠ ⟨0, none⟩ := by
  decide

/-- C11 (amended): the missed-day check resets the streak to count 0 and no
last completion date whenever the last completion date is set and is neither
today, yesterday nor tomorrow, and leaves the streak unchanged when the date is
null, today, yesterday or tomorrow. -/
theorem resetStreakIfDayMissed_spec (today : Date) (s : StreakInfo) :
    ((∃ last, s.lastCompletionDate = some last ∧ last ≠ today ∧ last ≠ prevDay today ∧
        last ≠ nextDay today) → resetStreakIfDayMissed today s = ⟨0, none⟩) ∧
      ((s.lastCompletionDate = none ∨ s.lastCompletionDate = some today ∨
          s.lastCompletionDate = some (prevDay today) ∨
          s.lastCompletionDate = some (nextDay today)) →
        resetStreakIfDayMissed today s = s) := by
  constructor
  · rintro ⟨last, hl, h1, h2, h3⟩
    have hgt : today.toDays - last.toDays > 1 ∨ last.toDays - today.toDays > 1 := by
      have e1 : last.toDays ≠ today.toDays := fun h => h1 (toDays_injective h)
      have e2 : last.toDays ≠ (prevDay today).toDays := fun h => h2 (toDays_injective h)
      have e3 : last.toDays ≠ (nextDay today).toDays := fun h => h3 (toDays_injective h)
      rw [toDays_prevDay] at e2
      rw [toDays_nextDay] at e3
      omega
    unfold resetStreakIfDayMissed
    simp only [hl, ne_eq, h1, not_false_eq_true, if_true, Date.getTime]
    rw [if_pos ((diffDays_gt_one_iff _ _).mpr hgt)]
  · intro h
    unfold resetStreakIfDayMissed
    rcases h with h | h | h | h
    · simp only [h]
    · simp only [h, ne_eq, not_true_eq_false, if_false]
    · simp only [h, Date.getTime]
      split_ifs with h1 h2
      · rw [diffDays_gt_one_iff, toDays_prevDay] at h2
        omega
      · rfl
      · rfl
    · simp only [h, Date.getTime]
      split_ifs with h1 h2
      · rw [diffDays_gt_one_iff, toDays_nextDay] at h2
        omega
      · rfl
      · rfl

/-! ## Streak calculator and recurring tasks -/

theorem nonRecurringCompletedOn_filter (tasks : List Task) (day : Date) :
    nonRecurringCompletedOn (tasks.filter fun t => !hasRecurrence t) day =
      nonRecurringCompletedOn tasks day := by
  unfold nonRecurringCompletedOn
  induction tasks with
  | nil => rfl
  | cons t rest ih =>
    cases hr : hasRecurrence t <;> simp [List.filter_cons, hr, ih]

/-- C12: the result of `updateStreak` does not depend on recurring tasks: two
task lists with the same tasks without a recurrence rule give the same new
streak state, for every streak state and every clock reading (today string
and yesterday string). -/
theorem updateStreak_ignores_recurring (tasks1 tasks2 : List Task)
    (today yesterdayStr : Date) (s : StreakInfo)
    (h : (tasks1.filter fun t => !hasRecurrence t) = tasks2.filter fun t => !hasRecurrence t) :
    updateStreak tasks1 today yesterdayStr s = updateStreak tasks2 today yesterdayStr s := by
  have h1 : ∀ day, nonRecurringCompletedOn tasks1 day = nonRecurringCompletedOn tasks2 day := by
    intro day
    rw [← nonRecurringCompletedOn_filter tasks1, ← nonRecurringCompletedOn_filter tasks2, h]
  unfold updateStreak
  simp only [h1]

/-- Witness for C12: two lists that share the one-off task and differ in their
recurring tasks. -/
theorem updateStreak_ignores_recurring_witness :
    updateStreak [doneYesterday, payRent] march15 march14 ⟨3, some march14⟩ =
      updateStreak [waterPlants, doneYesterday] march15 march14 ⟨3, some march14⟩ :=
  updateStreak_ignores_recurring [doneYesterday, payRent] [waterPlants, doneYesterday]
    march15 march14 ⟨3, some march14⟩ (by decide)

/-! ## Invariants: theorems -/

theorem toggleTask_completionConsistent (task : Task) (subtaskId : Option Nat) (now : Instant)
    (h : completionConsistent task) : completionConsistent (toggleTask task subtaskId now) := by
  unfold completionConsistent at h ⊢
  unfold toggleTask
  cases hc : task.completed <;> simp only [hc] at h ⊢ <;> split_ifs <;> simp_all

theorem resetTask_completionConsistent (task : Task) (d : Date) :
    completionConsistent (resetTask task d) := by
  simp [completionConsistent, resetTask]

theorem scanTask_completionConsistent (today : Instant) (todayStr : Date) (task : Task)
    (h : completionConsistent task) :
    completionConsistent (scanTask today todayStr task).1 := by
  rcases scanTask_cases today todayStr task with h1 | ⟨_, next, _, _, h1, _⟩
  · rw [h1]; exact h
  · rw [h1]; exact resetTask_completionConsistent task next

/-- C13: the completion invariant (completed implies `completedAt` set, not
completed implies `completedAt` null) is preserved by `addTask`,
`toggleComplete` on both paths, `addSubtask`, `deleteTask`, `clearTaskHistory`
and the startup recurrence scan, whatever its clock readings `today` (local
midnight) and `todayStr` (the UTC date). -/
theorem completionConsistent_preserved (prevTasks : List Task)
    (h : ∀ t ∈ prevTasks, completionConsistent t)
    (id taskId : Nat) (subtaskId : Option Nat) (now : Instant) (text notes : String)
    (dueDate : Option Date) (rule : Option String) (confirmed : Bool) (today : Instant)
    (todayStr : Date) :
    (∀ t ∈ addTask prevTasks id now text dueDate notes rule, completionConsistent t) ∧
      (∀ t ∈ toggleComplete prevTasks taskId subtaskId now, completionConsistent t) ∧
      (∀ t ∈ addSubtask prevTasks taskId text id, completionConsistent t) ∧
      (∀ t ∈ deleteTask prevTasks taskId subtaskId, completionConsistent t) ∧
      (∀ t ∈ clearTaskHistory confirmed prevTasks, completionConsistent t) ∧
      (∀ t ∈ (advanceRecurringTasks today todayStr prevTasks).1,
        completionConsistent t) := by
  refine ⟨?_, ?_, ?_, ?_, ?_, ?_⟩
  · intro t ht
    unfold addTask at ht
    rw [List.mem_append, List.mem_singleton] at ht
    rcases ht with ht | ht
    · exact h t ht
    · rw [ht]; simp [completionConsistent, newTask]
  · intro t ht
    unfold toggleComplete at ht
    rw [List.mem_map] at ht
    obtain ⟨t0, ht0, rfl⟩ := ht
    split_ifs
    · exact toggleTask_completionConsistent t0 subtaskId now (h t0 ht0)
    · exact h t0 ht0
  · intro t ht
    unfold addSubtask at ht
    split_ifs at ht
    · exact h t ht
    · rw [List.mem_map] at ht
      obtain ⟨t0, ht0, rfl⟩ := ht
      split_ifs
      · exact h t0 ht0
      · exact h t0 ht0
  · intro t ht
    unfold deleteTask at ht
    split_ifs at ht
    · rw [List.mem_map] at ht
      obtain ⟨t0, ht0, rfl⟩ := ht
      split_ifs
      · exact h t0 ht0
      · exact h t0 ht0
    · exact h t (List.mem_of_mem_filter ht)
  · intro t ht
    unfold clearTaskHistory at ht
    split_ifs at ht
    · exact h t (List.mem_of_mem_filter ht)
    · exact h t ht
  · intro t ht
    rw [advanceRecurringTasks_fst, List.mem_map] at ht
    obtain ⟨t0, ht0, rfl⟩ := ht
    exact scanTask_completionConsistent today todayStr t0 (h t0 ht0)

/-- Witness for C13: a list with an open task and a completed one. -/
theorem completionConsistent_preserved_witness :
    (∀ t ∈ addTask [openTask, doneYesterday] 9 noonMarch15 "Read" none "" none,
        completionConsistent t) ∧
      (∀ t ∈ toggleComplete [openTask, doneYesterday] 4 none noonMarch15,
        completionConsistent t) ∧
      (∀ t ∈ addSubtask [openTask, doneYesterday] 4 "Read" 9, completionConsistent t) ∧
      (∀ t ∈ deleteTask [openTask, doneYesterday] 4 none, completionConsistent t) ∧
      (∀ t ∈ clearTaskHistory true [openTask, doneYesterday], completionConsistent t) ∧
      (∀ t ∈ (advanceRecurringTasks midnightMarch15 march15 [openTask, doneYesterday]).1,
        completionConsistent t) :=
  completionConsistent_preserved [openTask, doneYesterday] (by decide) 9 4 none noonMarch15
    "Read" "" none none true midnightMarch15 march15

theorem toggleTask_none_parentMatchesSubtasks (task : Task) (now : Instant)
    (hc : task.completed = true) : parentMatchesSubtasks (toggleTask task none now) := by
  unfold parentMatchesSubtasks toggleTask
  simp only [jsTruthyId, hc, Bool.not_true, Bool.false_eq_true, if_false]
  intro hne
  constructor
  · intro h; cases h
  · intro h
    exfalso
    cases hs : task.subtasks with
    | nil => simp [hs] at hne
    | cons sub rest =>
      have := h { sub with completed := false } (by simp [hs])
      cases this

/-- C14 as stated fails in three places: `addSubtask` puts an open subtask
under a completed task, `deleteTask` of the last open subtask leaves an open
task with all subtasks completed, and `toggleComplete` with no subtask id
completes a task above an open subtask. -/
theorem parentMatchesSubtasks_counterexample :
    (parentMatchesSubtasks taskAllDone ∧
        ¬ ∀ t ∈ addSubtask [taskAllDone] 7 "Hat" 13, parentMatchesSubtasks t) ∧
      (parentMatchesSubtasks taskWithTwoSubtasks ∧
        ¬ ∀ t ∈ deleteTask [taskWithTwoSubtasks] 7 (some 11), parentMatchesSubtasks t) ∧
      (parentMatchesSubtasks taskWithTwoSubtasks ∧
        ¬ ∀ t ∈ toggleComplete [taskWithTwoSubtasks] 7 none noonMarch15,
          parentMatchesSubtasks t) := by
  decide

/-- With a falsy subtask id (`null` or `0`) `toggleTask` takes the parent
path. -/
theorem toggleTask_falsy (task : Task) (sid : Option Nat) (now : Instant)
    (hs : jsTruthyId sid = false) : toggleTask task sid now = toggleTask task none now := by
  have hn : jsTruthyId none = false := rfl
  unfold toggleTask
  simp only [hs, hn, Bool.false_eq_true, if_false]

/-- The parent path keeps the invariant of one task exactly when the task was
completed or has no subtasks. -/
theorem toggleTask_none_parentMatchesSubtasks_iff (task : Task) (now : Instant)
    (h : parentMatchesSubtasks task) :
    parentMatchesSubtasks (toggleTask task none now) ↔
      (task.completed = true ∨ task.subtasks = []) := by
  constructor
  · intro hinv
    by_cases hc : task.completed = true
    · exact Or.inl hc
    · right
      by_contra hne
      have hfalse : task.completed = false := by simpa using hc
      have hall : ∀ sub ∈ task.subtasks, sub.completed = true := by
        unfold parentMatchesSubtasks toggleTask at hinv
        simp only [jsTruthyId, hfalse, Bool.not_false, Bool.false_eq_true, if_false, if_true,
          true_iff] at hinv
        exact hinv hne
      exact hc ((h hne).mpr hall)
  · rintro (hc | hs)
    · exact toggleTask_none_parentMatchesSubtasks task now hc
    · unfold parentMatchesSubtasks toggleTask
      intro hne
      exfalso
      apply hne
      cases hcomp : task.completed <;> simp [jsTruthyId, hcomp, hs]

/-- Deleting a subtask keeps the invariant of its parent exactly when the
parent is completed, or no subtask is left, or an incomplete subtask is
left. -/
theorem deleteSubtask_parentMatchesSubtasks_iff (task : Task) (subtaskId : Nat)
    (h : parentMatchesSubtasks task) :
    parentMatchesSubtasks
        { task with
          subtasks := task.subtasks.filter fun sub => decide (some sub.id ≠ some subtaskId) } ↔
      (task.completed = true ∨ (∀ sub ∈ task.subtasks, sub.id = subtaskId) ∨
        ∃ sub ∈ task.subtasks, sub.id ≠ subtaskId ∧ sub.completed = false) := by
  unfold parentMatchesSubtasks
  simp only
  constructor
  · intro hinv
    by_cases hc : task.completed = true
    · exact Or.inl hc
    · right
      by_cases hkeep : (task.subtasks.filter fun sub => decide (some sub.id ≠ some subtaskId)) = []
      · left
        intro sub hsub
        by_contra hid
        have : sub ∈ task.subtasks.filter fun sub => decide (some sub.id ≠ some subtaskId) := by
          rw [List.mem_filter]
          exact ⟨hsub, by simpa using hid⟩
        rw [hkeep] at this
        cases this
      · right
        have hnot := (not_congr (hinv hkeep)).mp hc
        push_neg at hnot
        obtain ⟨sub, hsub, hopen⟩ := hnot
        rw [List.mem_filter] at hsub
        exact ⟨sub, hsub.1, by simpa using hsub.2, by simpa using hopen⟩
  · rintro (hc | hall | ⟨sub, hsub, hid, hopen⟩)
    · intro _
      simp only [hc, true_iff]
      intro sub hsub
      have hmem : sub ∈ task.subtasks := List.mem_of_mem_filter hsub
      exact (h (List.ne_nil_of_mem hmem)).mp hc sub hmem
    · intro hne
      exfalso
      apply hne
      rw [List.filter_eq_nil_iff]
      intro sub hsub
      simp [hall sub hsub]
    · intro _
      have hmem : sub ∈ task.subtasks.filter fun sub => decide (some sub.id ≠ some subtaskId) := by
        rw [List.mem_filter]
        exact ⟨hsub, by simpa using hid⟩
      constructor
      · intro hc
        intro sub2 hsub2
        have hmem2 : sub2 ∈ task.subtasks := List.mem_of_mem_filter hsub2
        exact (h (List.ne_nil_of_mem hmem2)).mp hc sub2 hmem2
      · intro hall
        have := hall sub hmem
        rw [hopen] at this
        cases this

/-- C14 (amended): `addTask`, `toggleComplete` with a non-zero subtask id,
`deleteTask` of a task and `clearTaskHistory` preserve the parent/subtask
invariant. `toggleComplete` with no subtask id (or the id 0) preserves it
exactly when every toggled task is completed or has no subtasks; `addSubtask`
exactly when the text is blank or no parent is completed; `deleteTask` of a
subtask exactly when every parent is completed, or is left with no subtask,
or is left with an incomplete subtask. -/
theorem parentMatchesSubtasks_preserved (prevTasks : List Task)
    (h : ∀ t ∈ prevTasks, parentMatchesSubtasks t)
    (id taskId subtaskId : Nat) (falsyId : Option Nat) (now : Instant) (text notes : String)
    (dueDate : Option Date) (rule : Option String) (confirmed : Bool) :
    (∀ t ∈ addTask prevTasks id now text dueDate notes rule, parentMatchesSubtasks t) ∧
      (subtaskId ≠ 0 →
        ∀ t ∈ toggleComplete prevTasks taskId (some subtaskId) now, parentMatchesSubtasks t) ∧
      (jsTruthyId falsyId = false →
        ((∀ t ∈ toggleComplete prevTasks taskId falsyId now, parentMatchesSubtasks t) ↔
          ∀ t ∈ prevTasks, t.id = taskId → t.completed = true ∨ t.subtasks = [])) ∧
      ((∀ t ∈ addSubtask prevTasks taskId text id, parentMatchesSubtasks t) ↔
        (trimIsEmpty text = true ∨ ∀ t ∈ prevTasks, t.id = taskId → t.completed = false)) ∧
      (jsTruthyId falsyId = false →
        ∀ t ∈ deleteTask prevTasks taskId falsyId, parentMatchesSubtasks t) ∧
      (subtaskId ≠ 0 →
        ((∀ t ∈ deleteTask prevTasks taskId (some subtaskId), parentMatchesSubtasks t) ↔
          ∀ t ∈ prevTasks, t.id = taskId →
            t.completed = true ∨ (∀ sub ∈ t.subtasks, sub.id = subtaskId) ∨
              ∃ sub ∈ t.subtasks, sub.id ≠ subtaskId ∧ sub.completed = false)) ∧
      (∀ t ∈ clearTaskHistory confirmed prevTasks, parentMatchesSubtasks t) := by
  refine ⟨?_, ?_, ?_, ?_, ?_, ?_, ?_⟩
  · intro t ht
    unfold addTask at ht
    rw [List.mem_append, List.mem_singleton] at ht
    rcases ht with ht | ht
    · exact h t ht
    · rw [ht]; simp [parentMatchesSubtasks, newTask]
  · intro hid t ht
    unfold toggleComplete at ht
    rw [List.mem_map] at ht
    obtain ⟨t0, ht0, rfl⟩ := ht
    split_ifs
    · intro hne
      have hne0 : t0.subtasks ≠ [] := by
        intro h0
        apply hne
        simp [toggleTask, jsTruthyId_some hid, h0]
      exact toggleTask_subtask_iff t0 subtaskId now hid hne0
    · exact h t0 ht0
  · intro hfalsy
    unfold toggleComplete
    constructor
    · intro hinv t0 ht0 hid
      have hmem : toggleTask t0 falsyId now ∈
          prevTasks.map fun task =>
            if task.id = taskId then toggleTask task falsyId now else task := by
        rw [List.mem_map]
        exact ⟨t0, ht0, by simp [hid]⟩
      have := hinv _ hmem
      rw [toggleTask_falsy t0 falsyId now hfalsy] at this
      exact (toggleTask_none_parentMatchesSubtasks_iff t0 now (h t0 ht0)).mp this
    · intro hcond t ht
      rw [List.mem_map] at ht
      obtain ⟨t0, ht0, rfl⟩ := ht
      split_ifs with hid
      · rw [toggleTask_falsy t0 falsyId now hfalsy]
        exact (toggleTask_none_parentMatchesSubtasks_iff t0 now (h t0 ht0)).mpr
          (hcond t0 ht0 hid)
      · exact h t0 ht0
  · unfold addSubtask
    constructor
    · intro hinv
      by_cases hblank : trimIsEmpty text = true
      · exact Or.inl hblank
      · right
        intro t0 ht0 hid
        rw [if_neg hblank] at hinv
        have hmem : ({ t0 with subtasks := t0.subtasks ++ [⟨id, text, false⟩] } : Task) ∈
            prevTasks.map fun task =>
              if task.id = taskId then
                { task with subtasks := task.subtasks ++ [⟨id, text, false⟩] }
              else task := by
          rw [List.mem_map]
          exact ⟨t0, ht0, by simp [hid]⟩
        have hiff := hinv _ hmem (by simp)
        by_contra hc
        have hc1 : t0.completed = true := by simpa using hc
        have := hiff.mp hc1 ⟨id, text, false⟩ (by simp)
        cases this
    · intro hcond t ht
      split_ifs at ht with hblank
      · exact h t ht
      · rw [List.mem_map] at ht
        obtain ⟨t0, ht0, rfl⟩ := ht
        split_ifs with hid
        · have hc : t0.completed = false := by
            rcases hcond with hb | hopen
            · exact absurd hb hblank
            · exact hopen t0 ht0 hid
          unfold parentMatchesSubtasks
          intro _
          simp only [hc, Bool.false_eq_true, false_iff]
          intro hall
          have := hall ⟨id, text, false⟩ (by simp)
          cases this
        · exact h t0 ht0
  · intro hfalsy t ht
    unfold deleteTask at ht
    simp only [hfalsy, Bool.false_eq_true, if_false] at ht
    exact h t (List.mem_of_mem_filter ht)
  · intro hsid
    unfold deleteTask
    rw [if_pos (jsTruthyId_some hsid)]
    constructor
    · intro hinv t0 ht0 hid
      have hmem : ({ t0 with
          subtasks := t0.subtasks.filter fun sub => decide (some sub.id ≠ some subtaskId) } :
            Task) ∈
          prevTasks.map fun task =>
            if task.id = taskId then
              { task with
                subtasks :=
                  task.subtasks.filter fun sub => decide (some sub.id ≠ some subtaskId) }
            else task := by
        rw [List.mem_map]
        exact ⟨t0, ht0, by simp [hid]⟩
      exact (deleteSubtask_parentMatchesSubtasks_iff t0 subtaskId (h t0 ht0)).mp
        (hinv _ hmem)
    · intro hcond t ht
      rw [List.mem_map] at ht
      obtain ⟨t0, ht0, rfl⟩ := ht
      split_ifs with hid
      · exact (deleteSubtask_parentMatchesSubtasks_iff t0 subtaskId (h t0 ht0)).mpr
          (hcond t0 ht0 hid)
      · exact h t0 ht0
  · intro t ht
    unfold clearTaskHistory at ht
    split_ifs at ht
    · exact h t (List.mem_of_mem_filter ht)
    · exact h t ht

/-- Witness for C14: in a list with an open task that has an open and a
completed subtask, a completed task and an open task, both without subtasks:
a task is added, subtask 11 is toggled, the completed task and the open task
without subtasks are toggled, a subtask is added under the open parent, a
task is deleted, the completed subtask 12 is deleted from under the open
parent, and the history is cleared. -/
theorem parentMatchesSubtasks_preserved_witness :
    (∀ t ∈ addTask [taskWithTwoSubtasks, doneYesterday, openTask] 9 noonMarch15 "Read" none
        "" none, parentMatchesSubtasks t) ∧
      (∀ t ∈ toggleComplete [taskWithTwoSubtasks, doneYesterday, openTask] 7 (some 11)
        noonMarch15, parentMatchesSubtasks t) ∧
      (∀ t ∈ toggleComplete [taskWithTwoSubtasks, doneYesterday, openTask] 3 none noonMarch15,
        parentMatchesSubtasks t) ∧
      (∀ t ∈ toggleComplete [taskWithTwoSubtasks, doneYesterday, openTask] 4 none noonMarch15,
        parentMatchesSubtasks t) ∧
      (∀ t ∈ addSubtask [taskWithTwoSubtasks, doneYesterday, openTask] 7 "Read" 9,
        parentMatchesSubtasks t) ∧
      (∀ t ∈ deleteTask [taskWithTwoSubtasks, doneYesterday, openTask] 7 none,
        parentMatchesSubtasks t) ∧
      (∀ t ∈ deleteTask [taskWithTwoSubtasks, doneYesterday, openTask] 7 (some 12),
        parentMatchesSubtasks t) ∧
      (∀ t ∈ clearTaskHistory true [taskWithTwoSubtasks, doneYesterday, openTask],
        parentMatchesSubtasks t) :=
  have hall := parentMatchesSubtasks_preserved [taskWithTwoSubtasks, doneYesterday, openTask]
    (by decide) 9 7 11 none noonMarch15 "Read" "" none none true
  have hdone := parentMatchesSubtasks_preserved [taskWithTwoSubtasks, doneYesterday, openTask]
    (by decide) 9 3 11 none noonMarch15 "Read" "" none none true
  have hopen := parentMatchesSubtasks_preserved [taskWithTwoSubtasks, doneYesterday, openTask]
    (by decide) 9 4 11 none noonMarch15 "Read" "" none none true
  have hdel := parentMatchesSubtasks_preserved [taskWithTwoSubtasks, doneYesterday, openTask]
    (by decide) 9 7 12 none noonMarch15 "Read" "" none none true
  ⟨hall.1, hall.2.1 (by decide), (hdone.2.2.1 rfl).mpr (by decide),
    (hopen.2.2.1 rfl).mpr (by decide), hall.2.2.2.1.mpr (by decide),
    hall.2.2.2.2.1 rfl, (hdel.2.2.2.2.2.1 (by decide)).mpr (by decide),
    hall.2.2.2.2.2.2⟩

/-! ## Weight log: theorems -/

theorem compareEntryDates_le_iff (a b : WeightEntry) :
    compareEntryDates a b ≤ 0 ↔ a.date.toDays ≤ b.date.toDays := by
  unfold compareEntryDates Date.getTime msPerDay
  omega

/-- The collection returned by `addWeightEntry` is in date order. -/
theorem addWeightEntry_sorted_one (prevEntries : List WeightEntry) (entry : WeightEntry) :
    (addWeightEntry prevEntries entry).Sorted fun a b => a.date.ble b.date = true := by
  haveI : IsTotal WeightEntry (fun a b => compareEntryDates a b ≤ 0) :=
    ⟨fun a b => by simp only [compareEntryDates_le_iff]; omega⟩
  haveI : IsTrans WeightEntry (fun a b => compareEntryDates a b ≤ 0) :=
    ⟨fun a b c => by simp only [compareEntryDates_le_iff]; omega⟩
  have hs := List.sorted_insertionSort (fun a b => compareEntryDates a b ≤ 0)
    (prevEntries ++ [entry])
  unfold addWeightEntry jsSort
  refine List.Pairwise.imp ?_ hs
  intro a b hab
  rw [ble_iff_toDays_le]
  exact (compareEntryDates_le_iff a b).mp hab

/-- The collection returned by `addWeightEntry` holds the previous entries and
the new one. -/
theorem addWeightEntry_perm (prevEntries : List WeightEntry) (entry : WeightEntry) :
    (addWeightEntry prevEntries entry).Perm (prevEntries ++ [entry]) := by
  unfold addWeightEntry jsSort
  exact List.perm_insertionSort _ _

theorem foldl_addWeightEntry_perm (added : List WeightEntry) :
    ∀ prevEntries : List WeightEntry,
      (added.foldl addWeightEntry prevEntries).Perm (prevEntries ++ added) := by
  induction added with
  | nil => intro prevEntries; simp
  | cons e rest ih =>
    intro prevEntries
    rw [List.foldl_cons]
    refine (ih (addWeightEntry prevEntries e)).trans ?_
    have h := (addWeightEntry_perm prevEntries e).append_right rest
    simpa using h

theorem foldl_addWeightEntry_sorted (added : List WeightEntry) :
    ∀ prevEntries : List WeightEntry,
      (prevEntries.Sorted fun a b => a.date.ble b.date = true) →
      (added.foldl addWeightEntry prevEntries).Sorted fun a b => a.date.ble b.date = true := by
  induction added with
  | nil => intro prevEntries h; exact h
  | cons e rest ih =>
    intro prevEntries _
    rw [List.foldl_cons]
    exact ih _ (addWeightEntry_sorted_one prevEntries e)

/-- C15: after any sequence of `addWeightEntry` calls (on any collection when
the sequence is not empty, on a collection in date order otherwise) the
collection is in non-decreasing date order and holds exactly the previous
entries plus the added ones. -/
theorem addWeightEntry_sorted (prevEntries added : List WeightEntry)
    (h : added ≠ [] ∨ prevEntries.Sorted fun a b => a.date.ble b.date = true) :
    ((added.foldl addWeightEntry prevEntries).Sorted fun a b => a.date.ble b.date = true) ∧
      (added.foldl addWeightEntry prevEntries).Perm (prevEntries ++ added) := by
  refine ⟨?_, foldl_addWeightEntry_perm added prevEntries⟩
  rcases h with h | h
  · cases added with
    | nil => exact absurd rfl h
    | cons e rest =>
      rw [List.foldl_cons]
      exact foldl_addWeightEntry_sorted rest _ (addWeightEntry_sorted_one prevEntries e)
  · exact foldl_addWeightEntry_sorted added prevEntries h

/-- Witness for C15: two entries added to a collection that was not in order. -/
theorem addWeightEntry_sorted_witness :
    (([⟨3, march10, 82⟩, ⟨4, march14, 79⟩] : List WeightEntry).foldl addWeightEntry
        [⟨1, march15, 80⟩, ⟨2, march1, 81⟩]).Sorted (fun a b => a.date.ble b.date = true) ∧
      (([⟨3, march10, 82⟩, ⟨4, march14, 79⟩] : List WeightEntry).foldl addWeightEntry
        [⟨1, march15, 80⟩, ⟨2, march1, 81⟩]).Perm
        ([⟨1, march15, 80⟩, ⟨2, march1, 81⟩] ++ [⟨3, march10, 82⟩, ⟨4, march14, 79⟩]) :=
  addWeightEntry_sorted [⟨1, march15, 80⟩, ⟨2, march1, 81⟩]
    [⟨3, march10, 82⟩, ⟨4, march14, 79⟩] (Or.inl (by simp))

/-- C16: submitting a weight entry adds it exactly when the weight is a number
greater than 0, the date is not empty and no entry has that date; otherwise
the collection is unchanged; in both cases dates stay unique. -/
theorem handleSubmit_weight_spec (weightEntries : List WeightEntry) (weightValue : Option ℚ)
    (date : Option Date) (id : Nat) :
    (∀ w d, weightValue = some w → date = some d → 0 < w →
        (∀ e ∈ weightEntries, e.date ≠ d) →
        WeightTracker.handleSubmit weightEntries weightValue date id =
            addWeightEntry weightEntries ⟨id, d, w⟩ ∧
          (WeightTracker.handleSubmit weightEntries weightValue date id).Perm
            (weightEntries ++ [⟨id, d, w⟩])) ∧
      ((weightValue = none ∨ (∃ w, weightValue = some w ∧ w ≤ 0) ∨ date = none ∨
          ∃ d, date = some d ∧ ∃ e ∈ weightEntries, e.date = d) →
        WeightTracker.handleSubmit weightEntries weightValue date id = weightEntries) ∧
      ((weightEntries.map WeightEntry.date).Nodup →
        ((WeightTracker.handleSubmit weightEntries weightValue date id).map
          WeightEntry.date).Nodup) := by
  have hadd : ∀ w d, weightValue = some w → date = some d → 0 < w →
      (∀ e ∈ weightEntries, e.date ≠ d) →
      WeightTracker.handleSubmit weightEntries weightValue date id =
        addWeightEntry weightEntries ⟨id, d, w⟩ := by
    intro w d hw hd hpos hnew
    unfold WeightTracker.handleSubmit
    simp only [hw, hd]
    have h1 : ¬ (w = 0 ∨ w ≤ 0) := by
      intro h
      rcases h with h | h
      · rw [h] at hpos; exact lt_irrefl _ hpos
      · exact not_lt.mpr h hpos
    have h2 : (weightEntries.any fun entry => decide (entry.date = d)) = false := by
      rw [Bool.eq_false_iff]
      intro h
      rw [List.any_eq_true] at h
      obtain ⟨e, he, hed⟩ := h
      exact hnew e he (by simpa using hed)
    rw [if_neg h1, h2]
    simp
  have hkeep : (weightValue = none ∨ (∃ w, weightValue = some w ∧ w ≤ 0) ∨ date = none ∨
      ∃ d, date = some d ∧ ∃ e ∈ weightEntries, e.date = d) →
      WeightTracker.handleSubmit weightEntries weightValue date id = weightEntries := by
    intro h
    unfold WeightTracker.handleSubmit
    rcases h with h | ⟨w, hw, hle⟩ | h | ⟨d, hd, e, he, hed⟩
    · simp [h]
    · cases date with
      | none => simp
      | some d => simp [hw, hle]
    · cases weightValue <;> simp [h]
    · cases weightValue with
      | none => simp
      | some w =>
        simp only [hd]
        split_ifs with h1 h2
        · rfl
        · rfl
        · exfalso
          apply h2
          rw [List.any_eq_true]
          exact ⟨e, he, by simpa using hed⟩
  refine ⟨fun w d hw hd hpos hnew => ⟨hadd w d hw hd hpos hnew, ?_⟩, hkeep, ?_⟩
  · rw [hadd w d hw hd hpos hnew]
    exact addWeightEntry_perm _ _
  · intro hnd
    obtain hw | ⟨w, hw⟩ : weightValue = none ∨ ∃ w, weightValue = some w := by
      cases weightValue <;> simp
    · rw [hkeep (Or.inl hw)]; exact hnd
    · obtain hd | ⟨d, hd⟩ : date = none ∨ ∃ d, date = some d := by
        cases date <;> simp
      · rw [hkeep (Or.inr (Or.inr (Or.inl hd)))]; exact hnd
      · by_cases hpos : 0 < w
        · by_cases hnew : ∀ e ∈ weightEntries, e.date ≠ d
          · rw [hadd w d hw hd hpos hnew]
            have hp := (addWeightEntry_perm weightEntries ⟨id, d, w⟩).map WeightEntry.date
            rw [hp.nodup_iff]
            simp only [List.map_append, List.map_cons, List.map_nil]
            rw [List.nodup_append]
            refine ⟨hnd, List.nodup_singleton _, ?_⟩
            intro x hx hx2
            rw [List.mem_singleton] at hx2
            rw [List.mem_map] at hx
            obtain ⟨e, he, hed⟩ := hx
            exact hnew e he (hed.trans hx2)
          · push_neg at hnew
            obtain ⟨e, he, hed⟩ := hnew
            rw [hkeep (Or.inr (Or.inr (Or.inr ⟨d, hd, e, he, hed⟩)))]
            exact hnd
        · rw [hkeep (Or.inr (Or.inl ⟨w, hw, not_lt.mp hpos⟩))]
          exact hnd

/-! ## Task list view: theorems -/

theorem visibleTasksSource_eq (today : Date) (tasks : List Task) :
    visibleTasksSource today tasks =
      tasks.filter fun task => !task.completed || completedAtOn task today := by
  unfold visibleTasksSource
  apply List.filter_congr
  intro task _
  cases task.completed <;> simp

/-- C18: the displayed list holds exactly the tasks that are incomplete or
were completed today: it is a rearrangement of those tasks, every incomplete
task is shown, a completed task is shown exactly when its `completedAt` is on
today, and nothing is shown twice or invented. -/
theorem sortedVisibleTasks_perm (today : Date) (tasks : List Task) :
    (sortedVisibleTasks today tasks).Perm
        (tasks.filter fun task => !task.completed || completedAtOn task today) ∧
      (∀ task ∈ tasks, task.completed = false → task ∈ sortedVisibleTasks today tasks) ∧
      (∀ task ∈ tasks, task.completed = true →
        (task ∈ sortedVisibleTasks today tasks ↔ completedAtOn task today = true)) ∧
      (sortedVisibleTasks today tasks).Subperm tasks := by
  have hperm : (sortedVisibleTasks today tasks).Perm
      (tasks.filter fun task => !task.completed || completedAtOn task today) := by
    unfold sortedVisibleTasks jsSort
    rw [← visibleTasksSource_eq]
    exact List.perm_insertionSort _ _
  refine ⟨hperm, ?_, ?_, ?_⟩
  · intro task hmem hc
    rw [hperm.mem_iff, List.mem_filter]
    exact ⟨hmem, by simp [hc]⟩
  · intro task hmem hc
    rw [hperm.mem_iff, List.mem_filter]
    simp [hmem, hc]
  · exact hperm.subperm.trans (List.filter_sublist _).subperm

theorem getTaskPriority_cases (today : Date) (task : Task) :
    (task.dueDate = none → getTaskPriority today task = 5) ∧
      ∀ d, task.dueDate = some d →
        (getTaskPriority today task = 1 ↔ d.blt today = true) ∧
        (getTaskPriority today task = 2 ↔ d = today) ∧
        (getTaskPriority today task = 3 ↔ d = nextDay today) ∧
        (getTaskPriority today task = 4 ↔ (nextDay today).blt d = true) ∧
        getTaskPriority today task ≠ 5 := by
  constructor
  · intro h
    simp [getTaskPriority, h]
  · intro d hd
    have hn := toDays_nextDay today
    have e1 := blt_iff_toDays_lt d today
    have e2 := blt_iff_toDays_lt (nextDay today) d
    have e3 : d = today ↔ d.toDays = today.toDays :=
      ⟨fun h => by rw [h], toDays_injective⟩
    have e4 : d = nextDay today ↔ d.toDays = (nextDay today).toDays :=
      ⟨fun h => by rw [h], toDays_injective⟩
    rw [hn] at e2 e4
    unfold getTaskPriority
    simp only [hd, getTime_eq_iff]
    by_cases h1 : d.blt today = true
    · have := e1.mp h1
      rw [if_pos h1]
      refine ⟨by simp [h1], ?_, ?_, ?_, by simp⟩
      · constructor
        · intro h; cases h
        · intro h; rw [e3] at h; omega
      · constructor
        · intro h; cases h
        · intro h; rw [e4] at h; omega
      · constructor
        · intro h; cases h
        · intro h; rw [e2] at h; omega
    · have h1' : ¬ d.toDays < today.toDays := fun h => h1 (e1.mpr h)
      rw [if_neg h1]
      by_cases h2 : d = today
      · have := e3.mp h2
        rw [if_pos h2]
        refine ⟨?_, ?_, ?_, ?_, by simp⟩
        · constructor
          · intro h; cases h
          · intro h; exact absurd h h1
        · constructor
          · intro _; exact h2
          · intro _; rfl
        · constructor
          · intro h; cases h
          · intro h; rw [e4] at h; omega
        · constructor
          · intro h; cases h
          · intro h; rw [e2] at h; omega
      · have h2' : d.toDays ≠ today.toDays := fun h => h2 (e3.mpr h)
        rw [if_neg h2]
        by_cases h3 : d = nextDay today
        · have := e4.mp h3
          rw [if_pos h3]
          refine ⟨?_, ?_, ?_, ?_, by simp⟩
          · constructor
            · intro h; cases h
            · intro h; exact absurd h h1
          · constructor
            · intro h; cases h
            · intro h; exact absurd h h2
          · constructor
            · intro _; exact h3
            · intro _; rfl
          · constructor
            · intro h; cases h
            · intro h; rw [e2] at h; omega
        · have h3' : d.toDays ≠ today.toDays + 1 := fun h => h3 (e4.mpr h)
          rw [if_neg h3]
          refine ⟨?_, ?_, ?_, ?_, by simp⟩
          · constructor
            · intro h; cases h
            · intro h; exact absurd h h1
          · constructor
            · intro h; cases h
            · intro h; exact absurd h h2
          · constructor
            · intro h; cases h
            · intro h; exact absurd h h3
          · constructor
            · intro _; rw [e2]; omega
            · intro _; rfl

/-- The comparator puts `a` no later than `b` exactly when the class of `a` is
smaller, or the classes are equal and the due dates are in the order of the
class. -/
theorem compareTasks_le_iff (today : Date) (a b : Task) :
    compareTasks today a b ≤ 0 ↔
      (getTaskPriority today a < getTaskPriority today b ∨
        (getTaskPriority today a = getTaskPriority today b ∧
          (getTaskPriority today a = 1 → dueTime a ≤ dueTime b) ∧
          (getTaskPriority today a = 4 → dueTime b ≤ dueTime a))) := by
  unfold compareTasks
  simp only
  split_ifs <;> omega

theorem dueTime_le_iff (a b : Task) (da db : Date) (ha : a.dueDate = some da)
    (hb : b.dueDate = some db) : dueTime a ≤ dueTime b ↔ da.ble db = true := by
  simp only [dueTime, ha, hb, ble_iff_toDays_le, Date.getTime, msPerDay]
  omega

/-- C19: the displayed list is ordered by urgency. For a task shown before
another the class of the first is at most the class of the second; two overdue
tasks have due dates in non-decreasing order, two future tasks in non-increasing
order; tasks that compare equal keep the order they have in the source list.
The classes are Overdue 1, DueToday 2, DueTomorrow 3, Future 4, NoDueDate 5. -/
theorem sortedVisibleTasks_ordered (today : Date) (tasks : List Task) :
    (sortedVisibleTasks today tasks).Pairwise
        (fun a b =>
          getTaskPriority today a ≤ getTaskPriority today b ∧
          (getTaskPriority today a = 1 → getTaskPriority today b = 1 →
            ∀ da db, a.dueDate = some da → b.dueDate = some db → da.ble db = true) ∧
          (getTaskPriority today a = 4 → getTaskPriority today b = 4 →
            ∀ da db, a.dueDate = some da → b.dueDate = some db → db.ble da = true)) ∧
      (∀ a b, compareTasks today a b = 0 →
        List.Sublist [a, b] (visibleTasksSource today tasks) →
        List.Sublist [a, b] (sortedVisibleTasks today tasks)) ∧
      (∀ task, (task.dueDate = none → getTaskPriority today task = 5) ∧
        ∀ d, task.dueDate = some d →
          (getTaskPriority today task = 1 ↔ d.blt today = true) ∧
          (getTaskPriority today task = 2 ↔ d = today) ∧
          (getTaskPriority today task = 3 ↔ d = nextDay today) ∧
          (getTaskPriority today task = 4 ↔ (nextDay today).blt d = true) ∧
          getTaskPriority today task ≠ 5) := by
  haveI : IsTotal Task (fun a b => compareTasks today a b ≤ 0) :=
    ⟨fun a b => by simp only [compareTasks_le_iff]; omega⟩
  haveI : IsTrans Task (fun a b => compareTasks today a b ≤ 0) :=
    ⟨fun a b c => by simp only [compareTasks_le_iff]; omega⟩
  refine ⟨?_, ?_, fun task => getTaskPriority_cases today task⟩
  · have hs := List.sorted_insertionSort (fun a b => compareTasks today a b ≤ 0)
      (visibleTasksSource today tasks)
    unfold sortedVisibleTasks jsSort
    refine List.Pairwise.imp ?_ hs
    intro a b hab
    rw [compareTasks_le_iff] at hab
    refine ⟨by omega, ?_, ?_⟩
    · intro h1 h2 da db hda hdb
      rw [← dueTime_le_iff a b da db hda hdb]
      omega
    · intro h1 h2 da db hda hdb
      rw [← dueTime_le_iff b a db da hdb hda]
      omega
  · intro a b hab hsub
    unfold sortedVisibleTasks jsSort
    exact List.pair_sublist_insertionSort (le_of_eq hab) hsub

/-! ## Task form: theorems -/

theorem trimChars_eq_nil_iff (cs : List Char) :
    trimChars cs = [] ↔ cs.all jsIsWhiteSpace = true := by
  unfold trimChars
  rw [List.reverse_eq_nil_iff, List.dropWhile_eq_nil_iff]
  simp only [List.mem_reverse, List.all_eq_true]
  constructor
  · intro h
    have hnil : cs.dropWhile jsIsWhiteSpace = [] := by
      by_contra hne
      have hhead := List.head_dropWhile_not jsIsWhiteSpace cs hne
      have := h _ (List.head_mem hne)
      rw [this] at hhead
      cases hhead
    exact List.dropWhile_eq_nil_iff.mp hnil
  · intro h x hx
    exact h x ((List.dropWhile_sublist _).subset hx)

/-- The test `!s.trim()` holds exactly for the strings that are empty or hold
only white space. -/
theorem trimIsEmpty_iff (s : String) :
    trimIsEmpty s = true ↔ s.data.all jsIsWhiteSpace = true := by
  unfold trimIsEmpty
  rw [List.isEmpty_iff, trimChars_eq_nil_iff]

/-- C20: adding a task is rejected, with the list unchanged, when the text is
empty or only white space and when a recurrence is selected without a due
date; in every other case exactly one task is appended to the end of the list
and the existing tasks are unchanged. -/
theorem handleSubmit_task_spec (prevTasks : List Task) (taskText : String)
    (dueDate : Option Date) (notes : String) (recurrence : String) (id : Nat)
    (now : Instant) :
    (taskText.data.all jsIsWhiteSpace = true →
        TaskInput.handleSubmit prevTasks taskText dueDate notes recurrence id now =
          prevTasks) ∧
      (recurrence ≠ "" ∧ dueDate = none →
        TaskInput.handleSubmit prevTasks taskText dueDate notes recurrence id now =
          prevTasks) ∧
      (taskText.data.all jsIsWhiteSpace = false → ¬ (recurrence ≠ "" ∧ dueDate = none) →
        ∃ task, TaskInput.handleSubmit prevTasks taskText dueDate notes recurrence id now =
            prevTasks ++ [task] ∧
          task.id = id ∧ task.text = taskText ∧ task.dueDate = dueDate ∧
          task.notes = notes ∧ task.completed = false ∧ task.completedAt = none ∧
          task.createdAt = now ∧ task.subtasks = []) := by
  refine ⟨?_, ?_, ?_⟩
  · intro h
    unfold TaskInput.handleSubmit
    rw [if_pos ((trimIsEmpty_iff taskText).mpr h)]
  · rintro ⟨hr, hd⟩
    unfold TaskInput.handleSubmit
    split_ifs with h1 h2 h3
    · rfl
    · rw [hd] at h2; simp at h2
    · rfl
    · exfalso
      apply h3
      rw [hd]
      exact ⟨hr, by simp⟩
  · intro h hn
    have h1 : ¬ trimIsEmpty taskText = true := by
      rw [trimIsEmpty_iff, h]
      simp
    unfold TaskInput.handleSubmit
    rw [if_neg h1]
    split_ifs with h2 h3
    · exact ⟨_, rfl, rfl, rfl, rfl, rfl, rfl, rfl, rfl, rfl⟩
    · exfalso
      apply hn
      refine ⟨h3.1, ?_⟩
      cases dueDate with
      | none => rfl
      | some d => simp at h3
    · exact ⟨_, rfl, rfl, rfl, rfl, rfl, rfl, rfl, rfl, rfl⟩

/-! ## Task form: recurrence choices -/

/-- C21 at a failing input: the form offers the choice `Every 2nd day` with
the value `FREQ=DAILY;INTERVAL=2`, and submitting it with a text and a due date
creates a task whose `recurrenceRule` is null; the choices daily, weekly and
monthly create the rules `FREQ=DAILY`, `FREQ=WEEKLY` and `FREQ=MONTHLY`. -/
theorem handleSubmit_every_second_day_dropped :
    ("FREQ=DAILY;INTERVAL=2", "Every 2nd day") ∈ recurrenceOptions ∧
      (TaskInput.handleSubmit [] "Gym" (some march15) "" "FREQ=DAILY;INTERVAL=2" 9
          noonMarch15).map Task.recurrenceRule = [none] ∧
      (TaskInput.handleSubmit [] "Gym" (some march15) "" "daily" 9
          noonMarch15).map Task.recurrenceRule = [some "FREQ=DAILY"] ∧
      (TaskInput.handleSubmit [] "Gym" (some march15) "" "weekly" 9
          noonMarch15).map Task.recurrenceRule = [some "FREQ=WEEKLY"] ∧
      (TaskInput.handleSubmit [] "Gym" (some march15) "" "monthly" 9
          noonMarch15).map Task.recurrenceRule = [some "FREQ=MONTHLY"] := by
  decide

/-! ## Deleting: theorems -/

/-- C22 as stated fails for the subtask id `0`: the guard `if (subtaskId)`
sends the call to the branch that deletes the parent, so the whole task goes
instead of its subtask. -/
theorem deleteTask_subtask_zero_counterexample :
    deleteTask [taskWithSubtaskZero] 7 (some 0) = [] ∧
      deleteTask [taskWithSubtaskZero] 7 (some 0) ≠
        [{ taskWithSubtaskZero with subtasks := [] }] := by
  decide

/-- C22 (amended): `deleteTask(taskId)` removes exactly the tasks whose id is
`taskId` and keeps the others unchanged and in order; for a non-zero subtask id
`deleteTask(taskId, subtaskId)` removes exactly the subtasks with that id from
the tasks with id `taskId`, leaving their other fields, their other subtasks
and every other task unchanged. -/
theorem deleteTask_spec (prevTasks : List Task) (taskId subtaskId : Nat)
    (hid : subtaskId ≠ 0) :
    deleteTask prevTasks taskId none = prevTasks.filter (fun t => decide (t.id ≠ taskId)) ∧
      List.Sublist (deleteTask prevTasks taskId none) prevTasks ∧
      (∀ t, t ∈ deleteTask prevTasks taskId none ↔ t ∈ prevTasks ∧ t.id ≠ taskId) ∧
      List.Forall₂
        (fun t t' =>
          (t.id ≠ taskId → t' = t) ∧
          (t.id = taskId →
            t' = { t with
              subtasks := t.subtasks.filter fun sub => decide (sub.id ≠ subtaskId) }))
        prevTasks (deleteTask prevTasks taskId (some subtaskId)) := by
  have hnone : deleteTask prevTasks taskId none =
      prevTasks.filter (fun t => decide (t.id ≠ taskId)) := by
    simp [deleteTask, jsTruthyId]
  refine ⟨hnone, ?_, ?_, ?_⟩
  · rw [hnone]; exact List.filter_sublist _
  · intro t
    rw [hnone, List.mem_filter]
    simp
  · unfold deleteTask
    rw [if_pos (jsTruthyId_some hid), List.forall₂_map_right_iff, List.forall₂_same]
    intro t _
    constructor
    · intro hne
      rw [if_neg hne]
    · intro heq
      rw [if_pos heq]
      have hf : (t.subtasks.filter fun sub => decide (some sub.id ≠ some subtaskId)) =
          t.subtasks.filter fun sub => decide (sub.id ≠ subtaskId) := by
        apply List.filter_congr
        intro sub _
        simp
      rw [hf]

/-- Witness for C22: deleting subtask 11 of a task with two subtasks. -/
theorem deleteTask_spec_witness :
    deleteTask [taskWithTwoSubtasks, doneYesterday] 7 none =
        [taskWithTwoSubtasks, doneYesterday].filter (fun t => decide (t.id ≠ 7)) ∧
      List.Sublist (deleteTask [taskWithTwoSubtasks, doneYesterday] 7 none)
        [taskWithTwoSubtasks, doneYesterday] ∧
      (∀ t, t ∈ deleteTask [taskWithTwoSubtasks, doneYesterday] 7 none ↔
        t ∈ [taskWithTwoSubtasks, doneYesterday] ∧ t.id ≠ 7) ∧
      List.Forall₂
        (fun t t' =>
          (t.id ≠ 7 → t' = t) ∧
          (t.id = 7 →
            t' = { t with subtasks := t.subtasks.filter fun sub => decide (sub.id ≠ 11) }))
        [taskWithTwoSubtasks, doneYesterday]
        (deleteTask [taskWithTwoSubtasks, doneYesterday] 7 (some 11)) :=
  deleteTask_spec [taskWithTwoSubtasks, doneYesterday] 7 11 (by decide)

/-! ## Ids: theorems -/

/-- C23 as stated fails when the creation time is already an id: `addTask` at
time 4 onto a list holding task 4 gives two tasks with id 4, and `addSubtask`
at time 11 gives task 7 two subtasks with id 11. -/
theorem ids_reused_counterexample :
    ([openTask].map Task.id).Nodup ∧
      ¬ ((addTask [openTask] 4 noonMarch15 "Read" none "" none).map Task.id).Nodup ∧
      (taskWithTwoSubtasks.subtasks.map Subtask.id).Nodup ∧
      ¬ ∀ t ∈ addSubtask [taskWithTwoSubtasks] 7 "Hat" 11,
        (t.subtasks.map Subtask.id).Nodup := by
  decide

/-- C23 (amended): for a task list with pairwise distinct ids and a creation
time that is not the id of a task in the list, `addTask` yields a list whose
ids are pairwise distinct; for a task with pairwise distinct subtask ids and a
creation time that is not the id of one of its subtasks, `addSubtask` yields a
task whose subtask ids are pairwise distinct. -/
theorem ids_stay_distinct (prevTasks : List Task) (id parentId : Nat) (now : Instant)
    (text notes subtaskText : String) (dueDate : Option Date) (rule : Option String) :
    ((prevTasks.map Task.id).Nodup → id ∉ prevTasks.map Task.id →
        ((addTask prevTasks id now text dueDate notes rule).map Task.id).Nodup) ∧
      List.Forall₂
        (fun t t' => t'.id = t.id ∧
          ((t.subtasks.map Subtask.id).Nodup → id ∉ t.subtasks.map Subtask.id →
            (t'.subtasks.map Subtask.id).Nodup))
        prevTasks (addSubtask prevTasks parentId subtaskText id) := by
  constructor
  · intro hnd hnew
    unfold addTask
    rw [List.map_append, List.nodup_append]
    refine ⟨hnd, by simp, ?_⟩
    intro x hx hx2
    simp only [List.map_cons, List.map_nil, List.mem_singleton] at hx2
    rw [hx2] at hx
    exact hnew hx
  · unfold addSubtask
    split_ifs with hblank
    · rw [List.forall₂_same]
      intro t _
      exact ⟨rfl, fun h _ => h⟩
    · rw [List.forall₂_map_right_iff, List.forall₂_same]
      intro t _
      split_ifs with hp
      · refine ⟨rfl, ?_⟩
        intro hnd hnew
        simp only [List.map_append, List.map_cons, List.map_nil]
        rw [List.nodup_append]
        refine ⟨hnd, by simp, ?_⟩
        intro x hx hx2
        rw [List.mem_singleton] at hx2
        rw [hx2] at hx
        exact hnew hx
      · exact ⟨rfl, fun h _ => h⟩

/-! ## Startup recurrence scan: tasks left alone and stale completions -/

theorem advanceRecurringTasks_snd (today : Instant) (todayStr : Date) (tasks : List Task) :
    (advanceRecurringTasks today todayStr tasks).2 =
      tasks.any fun t => (scanTask today todayStr t).2 := by
  unfold advanceRecurringTasks
  simp only
  induction tasks with
  | nil => rfl
  | cons t rest ih => simp only [List.map_cons, List.any_cons, ih]

/-- C24 as stated fails for a task that is not taken as overdue: the scan does
not read the rule of a task due today, so a task with a malformed rule, or with
a rule that has no occurrence, that was completed on an earlier day is reset
(clock kept in UTC). -/
theorem scanTask_not_overdue_counterexample :
    RRule.fromString march15 "every day" = none ∧
      scanTask midnightMarch15 march15 staleMalformed ≠ (staleMalformed, false) ∧
      (RRule.fromString march15 "FREQ=DAILY;COUNT=0").bind
          (fun rule => rule.after (dayBefore midnightMarch15)) = none ∧
      scanTask midnightMarch15 march15 staleExhausted ≠ (staleExhausted, false) := by
  decide

/-- C24 (amended): the startup scan leaves a task unchanged when it has no
recurrence rule or no due date, when its rule has no occurrence at or after
the search start, and when its recurrence expression is malformed, with one
exception to the last two cases: a task that is due today, is not taken as
overdue (midnight UTC of its due date is not before local midnight) and is
completed with a `completedAt` not on today is reset whatever its rule text.
The scan deals with every other task of the list as it would without the
task, and a task left unchanged does not alter the update flag. -/
theorem scanTask_unchanged_cases (today : Instant) (todayStr : Date) (task : Task) :
    ((hasRecurrence task = false ∨ task.dueDate = none) →
        scanTask today todayStr task = (task, false)) ∧
      (∀ due rule, task.dueDate = some due →
        RRule.fromString due (task.recurrenceRule.getD "") = some rule →
        rule.after (dayBefore today) = none →
        ¬ (¬ due.getTime < today.getTime ∧ due = todayStr ∧ task.completed = true ∧
            completedAtNotOn task todayStr = true) →
        scanTask today todayStr task = (task, false)) ∧
      (∀ due, task.dueDate = some due →
        RRule.fromString due (task.recurrenceRule.getD "") = none →
        ¬ (¬ due.getTime < today.getTime ∧ due = todayStr ∧ task.completed = true ∧
            completedAtNotOn task todayStr = true) →
        scanTask today todayStr task = (task, false)) ∧
      (∀ due, hasRecurrence task = true → task.dueDate = some due →
        ¬ due.getTime < today.getTime → due = todayStr → task.completed = true →
        completedAtNotOn task todayStr = true →
        scanTask today todayStr task = (resetTask task due, true)) ∧
      (∀ before after : List Task,
        (advanceRecurringTasks today todayStr (before ++ task :: after)).1 =
            (advanceRecurringTasks today todayStr before).1 ++
              (scanTask today todayStr task).1 ::
                (advanceRecurringTasks today todayStr after).1 ∧
          (advanceRecurringTasks today todayStr (before ++ after)).1 =
            (advanceRecurringTasks today todayStr before).1 ++
              (advanceRecurringTasks today todayStr after).1 ∧
          (scanTask today todayStr task = (task, false) →
            (advanceRecurringTasks today todayStr (before ++ task :: after)).2 =
              (advanceRecurringTasks today todayStr (before ++ after)).2)) := by
  refine ⟨?_, ?_, ?_, ?_, ?_⟩
  · intro h
    unfold scanTask
    rcases h with h | h
    · cases hd : task.dueDate <;> simp [h]
    · simp [h]
  · intro due rule hd hf ha hex
    unfold scanTask
    by_cases hb : due.getTime < today.getTime
    · cases hr : hasRecurrence task <;> simp [hd, hb, hf, ha]
    · cases hr : hasRecurrence task
      · simp [hd]
      · simp only [hd, hb, if_true, if_false]
        rw [if_neg]
        simpa [hb] using hex
  · intro due hd hf hex
    unfold scanTask
    by_cases hb : due.getTime < today.getTime
    · cases hr : hasRecurrence task <;> simp [hd, hb, hf]
    · cases hr : hasRecurrence task
      · simp [hd]
      · simp only [hd, hb, if_true, if_false]
        rw [if_neg]
        simpa [hb] using hex
  · intro due hr hd hb hdt hc hat
    subst hdt
    unfold scanTask
    simp [hd, hr, hb, hc, hat]
  · intro before after
    refine ⟨?_, ?_, ?_⟩
    · simp only [advanceRecurringTasks_fst, List.map_append, List.map_cons]
    · simp only [advanceRecurringTasks_fst, List.map_append]
    · intro h
      simp only [advanceRecurringTasks_snd, List.any_append, List.any_cons, h,
        Bool.false_or]

/-- C25 at a failing input: in New York at 2024-03-15T14:00:00Z local midnight
is 04:00Z, after the midnight UTC of the due date 2024-03-15, so the task due
today is taken as overdue; its rule text is not a rule, the search fails and
the task, completed the day before, stays completed. The same task scanned by
a clock kept in UTC is reset. -/
theorem scanTask_due_today_taken_as_overdue :
    staleMalformed.dueDate = some march15 ∧
      hasRecurrence staleMalformed = true ∧
      staleMalformed.completed = true ∧
      completedAtNotOn staleMalformed march15 = true ∧
      march15.getTime < newYorkMidnightMarch15.getTime ∧
      scanTask newYorkMidnightMarch15 march15 staleMalformed = (staleMalformed, false) ∧
      advanceRecurringTasks newYorkMidnightMarch15 march15 [staleMalformed] =
        ([staleMalformed], false) ∧
      scanTask midnightMarch15 march15 staleMalformed =
        ({ staleMalformed with completed := false, completedAt := none }, true) := by
  decide

/-! ## Loading the stored tasks: theorems -/

/-- C26 at a failing input: the stored document `[{"id":1,"subtasks":5}]`.
The callback keeps the truthy value 5 in the field `subtasks`, so the one task
loaded has no subtasks sequence. Beside it, the same task stored without the
field, or with the field `null`, is loaded with `subtasks = []`. -/
theorem loadTasks_number_subtasks :
    loadTasks (some "[\x7b\"id\":1,\"subtasks\":5\x7d]") (fun _ =>
        some (Json.arr
          [Json.obj [(jsString "id", Json.num 1), (jsString "subtasks", Json.num 5)]])) =
      [Json.obj [(jsString "id", Json.num 1), (jsString "subtasks", Json.num 5)]] ∧
      hasSubtasksSequence
        (Json.obj [(jsString "id", Json.num 1), (jsString "subtasks", Json.num 5)]) = false ∧
      loadTasks (some "[\x7b\"id\":1\x7d]") (fun _ =>
        some (Json.arr [Json.obj [(jsString "id", Json.num 1)]])) =
      [Json.obj [(jsString "id", Json.num 1), (jsString "subtasks", Json.arr [])]] ∧
      loadTasks (some "[\x7b\"id\":1,\"subtasks\":null\x7d]") (fun _ =>
        some (Json.arr
          [Json.obj [(jsString "id", Json.num 1), (jsString "subtasks", Json.null)]])) =
      [Json.obj [(jsString "id", Json.num 1), (jsString "subtasks", Json.arr [])]] := by
  refine ⟨?_, ?_, ?_, ?_⟩ <;> rfl

/-! ## Startup recurrence scan: the cases at concrete tasks -/

/-- Witness for C24: a task without a rule, an overdue task whose rule ended
after two occurrences and an overdue task whose rule text is not a rule are
left unchanged, a task due today that was completed the day before is reset
though its rule text is not a rule, and the rent task next to the bad one is
still moved (clock kept in UTC). -/
theorem scanTask_unchanged_cases_witness :
    scanTask midnightMarch15 march15 openTask = (openTask, false) ∧
      scanTask midnightMarch15 march15 overdueExhausted = (overdueExhausted, false) ∧
      scanTask midnightMarch15 march15 overdueMalformed = (overdueMalformed, false) ∧
      scanTask midnightMarch15 march15 staleMalformed =
        (resetTask staleMalformed march15, true) ∧
      (advanceRecurringTasks midnightMarch15 march15
          ([payRent] ++ overdueMalformed :: [waterPlants])).1 =
        (advanceRecurringTasks midnightMarch15 march15 [payRent]).1 ++
          (scanTask midnightMarch15 march15 overdueMalformed).1 ::
            (advanceRecurringTasks midnightMarch15 march15 [waterPlants]).1 ∧
      (advanceRecurringTasks midnightMarch15 march15
          ([payRent] ++ overdueMalformed :: [waterPlants])).2 =
        (advanceRecurringTasks midnightMarch15 march15 ([payRent] ++ [waterPlants])).2 :=
  ⟨(scanTask_unchanged_cases midnightMarch15 march15 openTask).1 (Or.inl (by decide)),
    (scanTask_unchanged_cases midnightMarch15 march15 overdueExhausted).2.1 march10
      ⟨march10, Frequency.DAILY, 1, some 2⟩ rfl (by decide) (by decide) (by decide),
    (scanTask_unchanged_cases midnightMarch15 march15 overdueMalformed).2.2.1 march10 rfl
      (by decide) (by decide),
    (scanTask_unchanged_cases midnightMarch15 march15 staleMalformed).2.2.2.1 march15
      (by decide) rfl (by decide) rfl rfl (by decide),
    ((scanTask_unchanged_cases midnightMarch15 march15 overdueMalformed).2.2.2.2
      [payRent] [waterPlants]).1,
    ((scanTask_unchanged_cases midnightMarch15 march15 overdueMalformed).2.2.2.2
      [payRent] [waterPlants]).2.2
      ((scanTask_unchanged_cases midnightMarch15 march15 overdueMalformed).2.2.1 march10 rfl
        (by decide) (by decide))⟩

/-! ## Streak record: invariant -/

/-- C27: the streak invariant (count not negative, and zero exactly when there
is no last completion date) is preserved by `updateStreak`, by the missed-day
reset and by `resetStreak`, for every task list and every clock reading (today
string and yesterday string), the count being kept in double arithmetic. -/
theorem streakConsistent_preserved (tasks : List Task) (today yesterdayStr : Date)
    (confirmed : Bool) (s : StreakInfo) (h : streakConsistent s) :
    streakConsistent (updateStreak tasks today yesterdayStr s) ∧
      streakConsistent (resetStreakIfDayMissed today s) ∧
      streakConsistent (resetStreak confirmed s) := by
  have hzero : streakConsistent ⟨0, none⟩ := by
    simp [streakConsistent]
  obtain ⟨hpos, hiff⟩ := h
  refine ⟨?_, ?_, ?_⟩
  · unfold updateStreak
    simp only
    split_ifs with h1 h2 h3 h4 h5
    · have hone : 1 ≤ jsAdd s.count 1 := roundToDouble_pos _ (by omega)
      refine ⟨by simp only; omega, ?_⟩
      simp only
      constructor
      · intro h0; omega
      · intro h0; cases h0
    · simp [streakConsistent]
    · exact ⟨hpos, hiff⟩
    · have hgt : s.count > 1 := by
        simp only [Bool.and_eq_true, decide_eq_true_eq] at h5
        exact h5.1
      have hone : 1 ≤ jsSub s.count 1 := roundToDouble_pos _ (by omega)
      refine ⟨by simp only; omega, ?_⟩
      simp only
      constructor
      · intro h0; omega
      · intro h0; cases h0
    · exact hzero
    · exact ⟨hpos, hiff⟩
  · unfold resetStreakIfDayMissed
    split
    · simp only
      split_ifs
      · exact hzero
      · exact ⟨hpos, hiff⟩
      · exact ⟨hpos, hiff⟩
    · exact ⟨hpos, hiff⟩
  · unfold resetStreak
    split_ifs
    · exact hzero
    · exact ⟨hpos, hiff⟩

/-- Witness for C27: a streak of three days last counted on 2024-03-14. -/
theorem streakConsistent_preserved_witness :
    streakConsistent
        (updateStreak [doneYesterday, openTask] march15 march14 ⟨3, some march14⟩) ∧
      streakConsistent (resetStreakIfDayMissed march15 ⟨3, some march14⟩) ∧
      streakConsistent (resetStreak true ⟨3, some march14⟩) :=
  streakConsistent_preserved [doneYesterday, openTask] march15 march14 true
    ⟨3, some march14⟩ (by decide)

/-! ## Toggling: round trip and frame -/

theorem toggleTask_id (task : Task) (subtaskId : Option Nat) (now : Instant) :
    (toggleTask task subtaskId now).id = task.id := by
  unfold toggleTask
  simp only
  split_ifs <;> rfl

theorem toggleTask_subtasks (task : Task) (subtaskId : Nat) (now : Instant)
    (hid : subtaskId ≠ 0) :
    (toggleTask task (some subtaskId) now).subtasks =
      task.subtasks.map fun sub =>
        if some sub.id = some subtaskId then { sub with completed := !sub.completed }
        else sub := by
  unfold toggleTask
  simp only [jsTruthyId_some hid, if_true]
  split_ifs <;> rfl

theorem flip_flip (subtaskId : Nat) (subtasks : List Subtask) :
    (subtasks.map fun sub =>
        if some sub.id = some subtaskId then { sub with completed := !sub.completed }
        else sub).map
      (fun sub =>
        if some sub.id = some subtaskId then { sub with completed := !sub.completed }
        else sub) = subtasks := by
  rw [List.map_map]
  conv_rhs => rw [← List.map_id subtasks]
  apply List.map_congr_left
  intro sub _
  simp only [Function.comp, id]
  by_cases h : some sub.id = some subtaskId
  · simp only [h, if_true]
    cases sub
    simp
  · simp only [h, if_false]

theorem toggleTask_empty (task : Task) (subtaskId : Nat) (now : Instant)
    (hid : subtaskId ≠ 0) (he : task.subtasks = []) :
    (toggleTask task (some subtaskId) now).completed = task.completed := by
  unfold toggleTask
  simp [jsTruthyId_some hid, he]

/-- Toggling the same subtask of one task twice gives back its subtasks and,
when the parent agreed with its subtasks, its completed flag. -/
theorem toggleTask_twice (task : Task) (subtaskId : Nat) (now1 now2 : Instant)
    (hid : subtaskId ≠ 0)
    (hinv : task.completed = true ↔
      (task.subtasks ≠ [] ∧ ∀ sub ∈ task.subtasks, sub.completed = true)) :
    (toggleTask (toggleTask task (some subtaskId) now1) (some subtaskId) now2).completed =
        task.completed ∧
      (toggleTask (toggleTask task (some subtaskId) now1) (some subtaskId) now2).subtasks =
        task.subtasks := by
  have hsub : (toggleTask (toggleTask task (some subtaskId) now1) (some subtaskId)
      now2).subtasks = task.subtasks := by
    rw [toggleTask_subtasks _ _ _ hid, toggleTask_subtasks _ _ _ hid, flip_flip]
  refine ⟨?_, hsub⟩
  by_cases he : task.subtasks = []
  · have he1 : (toggleTask task (some subtaskId) now1).subtasks = [] := by
      rw [toggleTask_subtasks _ _ _ hid, he]
      rfl
    rw [toggleTask_empty _ _ _ hid he1, toggleTask_empty _ _ _ hid he]
  · have hne1 : (toggleTask task (some subtaskId) now1).subtasks ≠ [] := by
      rw [toggleTask_subtasks _ _ _ hid]
      simpa using he
    have h2 := toggleTask_subtask_iff (toggleTask task (some subtaskId) now1) subtaskId now2
      hid hne1
    rw [hsub] at h2
    have h3 : task.completed = true ↔ ∀ sub ∈ task.subtasks, sub.completed = true :=
      hinv.trans ⟨fun h => h.2, fun h => ⟨he, h⟩⟩
    cases hc : task.completed
    · rw [hc] at h3
      rw [Bool.eq_false_iff]
      intro h4
      have := h3.mpr (h2.mp h4)
      cases this
    · rw [hc] at h3
      exact h2.mpr (h3.mp rfl)

/-- C28 as stated fails for the subtask id `0`: two calls take the parent path
and the second one resets every subtask, so the completed subtask 0 comes out
open. -/
theorem toggleComplete_twice_zero_counterexample :
    (taskZeroDone.subtasks.map Subtask.id).Nodup ∧
      (taskZeroDone.completed = true ↔
        (taskZeroDone.subtasks ≠ [] ∧ ∀ sub ∈ taskZeroDone.subtasks, sub.completed = true)) ∧
      (toggleComplete (toggleComplete [taskZeroDone] 7 (some 0) noonMarch15) 7 (some 0)
          noonMarch15).map (fun t => t.subtasks.map Subtask.completed) ≠
        [taskZeroDone.subtasks.map Subtask.completed] := by
  decide

/-- C28 (amended): for every non-zero subtask id, applying
`toggleComplete(taskId, subtaskId)` twice leaves every task with another id
unchanged and gives every task with that id, in which completed held exactly
when the subtasks were non-empty and all completed, its original completed flag
and its original subtasks, completion flags included. -/
theorem toggleComplete_twice (prevTasks : List Task) (taskId subtaskId : Nat)
    (now1 now2 : Instant) (hid : subtaskId ≠ 0) :
    List.Forall₂
      (fun t t' =>
        (t.id ≠ taskId → t' = t) ∧
        (t.id = taskId →
          (t.completed = true ↔
            (t.subtasks ≠ [] ∧ ∀ sub ∈ t.subtasks, sub.completed = true)) →
          t'.completed = t.completed ∧ t'.subtasks = t.subtasks))
      prevTasks
      (toggleComplete (toggleComplete prevTasks taskId (some subtaskId) now1) taskId
        (some subtaskId) now2) := by
  unfold toggleComplete
  rw [List.map_map, List.forall₂_map_right_iff, List.forall₂_same]
  intro t _
  simp only [Function.comp]
  constructor
  · intro hne
    rw [if_neg hne, if_neg hne]
  · intro heq hinv
    rw [if_pos heq, if_pos (by rw [toggleTask_id]; exact heq)]
    exact toggleTask_twice t subtaskId now1 now2 hid hinv

/-- Witness for C28: subtask 11 of a task with two subtasks, toggled twice. -/
theorem toggleComplete_twice_witness :
    List.Forall₂
      (fun t t' =>
        (t.id ≠ 7 → t' = t) ∧
        (t.id = 7 →
          (t.completed = true ↔
            (t.subtasks ≠ [] ∧ ∀ sub ∈ t.subtasks, sub.completed = true)) →
          t'.completed = t.completed ∧ t'.subtasks = t.subtasks))
      [taskWithTwoSubtasks, doneYesterday]
      (toggleComplete
        (toggleComplete [taskWithTwoSubtasks, doneYesterday] 7 (some 11) noonMarch15) 7
        (some 11) noonMarch15) :=
  toggleComplete_twice [taskWithTwoSubtasks, doneYesterday] 7 11 noonMarch15 noonMarch15
    (by decide)

theorem toggleTask_frame (task : Task) (subtaskId : Option Nat) (now : Instant) :
    (toggleTask task subtaskId now).id = task.id ∧
      (toggleTask task subtaskId now).text = task.text ∧
      (toggleTask task subtaskId now).dueDate = task.dueDate ∧
      (toggleTask task subtaskId now).notes = task.notes ∧
      (toggleTask task subtaskId now).recurrenceRule = task.recurrenceRule ∧
      (toggleTask task subtaskId now).createdAt = task.createdAt ∧
      List.Forall₂ (fun sub sub' => sub'.id = sub.id ∧ sub'.text = sub.text) task.subtasks
        (toggleTask task subtaskId now).subtasks := by
  have hflip : List.Forall₂ (fun sub sub' => sub'.id = sub.id ∧ sub'.text = sub.text)
      task.subtasks
      (task.subtasks.map fun sub =>
        if some sub.id = subtaskId then { sub with completed := !sub.completed } else sub) := by
    rw [List.forall₂_map_right_iff, List.forall₂_same]
    intro sub _
    split_ifs <;> exact ⟨rfl, rfl⟩
  have hreset : List.Forall₂ (fun sub sub' => sub'.id = sub.id ∧ sub'.text = sub.text)
      task.subtasks (task.subtasks.map fun sub => { sub with completed := false }) := by
    rw [List.forall₂_map_right_iff, List.forall₂_same]
    intro sub _
    exact ⟨rfl, rfl⟩
  have hsame : List.Forall₂ (fun sub sub' => sub'.id = sub.id ∧ sub'.text = sub.text)
      task.subtasks task.subtasks := by
    rw [List.forall₂_same]
    intro sub _
    exact ⟨rfl, rfl⟩
  unfold toggleTask
  simp only
  split_ifs <;> exact ⟨rfl, rfl, rfl, rfl, rfl, rfl, by first | exact hflip | exact hreset | exact hsame⟩

/-- C29: `toggleComplete` changes nothing but completion state: the number
and order of tasks are kept, every task with another id is unchanged, and in a
task with that id the id, text, due date, notes, recurrence rule, creation
time and the id, text and order of every subtask are unchanged. -/
theorem toggleComplete_frame (prevTasks : List Task) (taskId : Nat) (subtaskId : Option Nat)
    (now : Instant) :
    (toggleComplete prevTasks taskId subtaskId now).length = prevTasks.length ∧
      List.Forall₂
        (fun t t' =>
          (t.id ≠ taskId → t' = t) ∧
          t'.id = t.id ∧ t'.text = t.text ∧ t'.dueDate = t.dueDate ∧ t'.notes = t.notes ∧
          t'.recurrenceRule = t.recurrenceRule ∧ t'.createdAt = t.createdAt ∧
          List.Forall₂ (fun sub sub' => sub'.id = sub.id ∧ sub'.text = sub.text)
            t.subtasks t'.subtasks)
        prevTasks (toggleComplete prevTasks taskId subtaskId now) := by
  unfold toggleComplete
  refine ⟨List.length_map _ _, ?_⟩
  rw [List.forall₂_map_right_iff, List.forall₂_same]
  intro t _
  by_cases h : t.id = taskId
  · rw [if_pos h]
    exact ⟨fun hne => absurd h hne, toggleTask_frame t subtaskId now⟩
  · rw [if_neg h]
    refine ⟨fun _ => rfl, rfl, rfl, rfl, rfl, rfl, rfl, ?_⟩
    rw [List.forall₂_same]
    intro sub _
    exact ⟨rfl, rfl⟩

/-! ## History view: theorems -/

/-- C30: after a confirmed `clearTaskHistory` the list shown by `TaskHistory`
(completed, `completedAt` set, no recurrence rule) is empty, and a second
`clearTaskHistory` changes nothing. -/
theorem clearTaskHistory_empties_history (prevTasks : List Task) :
    completedTasks (clearTaskHistory true prevTasks) = [] ∧
      clearTaskHistory true (clearTaskHistory true prevTasks) =
        clearTaskHistory true prevTasks := by
  constructor
  · have hnil : ((clearTaskHistory true prevTasks).filter fun task =>
        task.completed && task.completedAt.isSome && !hasRecurrence task) = [] := by
      rw [List.filter_eq_nil_iff]
      intro task hmem
      unfold clearTaskHistory at hmem
      rw [if_pos rfl, List.mem_filter] at hmem
      have hkeep := hmem.2
      cases hc : task.completed <;> cases hr : hasRecurrence task <;>
        simp [hc, hr] at hkeep ⊢
    unfold completedTasks jsSort
    rw [hnil]
    rfl
  · unfold clearTaskHistory
    simp only [if_true, List.filter_filter, Bool.and_self]

end MyTodoList
